import Mathlib

/-!
Verification of the command interpretation engine of the `linux_simulator`
repository: a POSIX-like shell simulator over an in-memory virtual
filesystem.  The definitions below are shallow embeddings of the TypeScript
source (`src/utils/path.ts`, `src/fs.ts`, `src/App.tsx`, and the
`useShell` hook variant).  JavaScript string/array primitives used by the
source (`split`, `join`, `trim`, `slice`, `parseInt`, …) are modelled
first, operating on `String.data` so that their behaviour is fully
specified and executable.
-/

namespace LinuxSim

/-! ## JavaScript primitive models -/

/-- The whitespace characters recognised by JS `trim` / `\s` (ASCII part). -/
def jsIsSpace (c : Char) : Bool :=
  c = ' ' || c = '\t' || c = '\n' || c = '\r' || c = '\x0c' || c = '\x0b'

/-- JS `String.prototype.trim`. -/
def jsTrim (s : String) : String :=
  String.mk (((s.data.dropWhile jsIsSpace).reverse.dropWhile jsIsSpace).reverse)

/-- JS `String.prototype.split` with a single-character separator. -/
def jsSplitChar (sep : Char) (s : String) : List String :=
  (s.data.splitOn sep).map String.mk

/-- JS `Array.prototype.join` with a single-character separator. -/
def jsJoinChar (sep : Char) (l : List String) : String :=
  String.mk (List.intercalate [sep] (l.map String.data))

/-- JS `String.prototype.startsWith`. -/
def jsStartsWith (pre s : String) : Bool :=
  pre.data.isPrefixOf s.data

/-- Fuel-driven worker for splitting on a (nonempty) separator sequence. -/
def splitSeqGo (sep : List Char) : Nat → List Char → List Char → List (List Char)
  | 0, l, acc => [acc.reverse ++ l]
  | fuel + 1, l, acc =>
    match l with
    | [] => [acc.reverse]
    | c :: rest =>
      if sep ≠ [] ∧ sep.isPrefixOf l then
        acc.reverse :: splitSeqGo sep fuel (l.drop sep.length) []
      else
        splitSeqGo sep fuel rest (c :: acc)

/-- JS `String.prototype.split` with an arbitrary nonempty string separator
(leftmost, non-overlapping occurrences). -/
def jsSplitStr (sep : String) (s : String) : List String :=
  (splitSeqGo sep.data (s.data.length + 1) s.data []).map String.mk

/-- Digits-prefix value for `jsParseInt`. -/
def digitsVal (l : List Char) : Nat :=
  l.foldl (fun n c => n * 10 + (c.toNat - 48)) 0

/-- JS `parseInt(s, 10)`: skip leading whitespace, optional sign, then the
longest digit prefix; `none` models `NaN`. -/
def jsParseInt (s : String) : Option Int :=
  let t := s.data.dropWhile jsIsSpace
  let core : List Char → Option Nat := fun l =>
    let ds := l.takeWhile Char.isDigit
    if ds = [] then none else some (digitsVal ds)
  match t with
  | '+' :: r => (core r).map fun n => (n : Int)
  | '-' :: r => (core r).map fun n => -(n : Int)
  | r => (core r).map fun n => (n : Int)

/-- JS `Array.prototype.slice(start)` with a possibly negative index. -/
def jsSliceFrom {α : Type} (l : List α) (start : Int) : List α :=
  l.drop ((if start < 0 then (l.length : Int) + start else start).toNat)

/-- JS `Array.prototype.slice(0, stop)` with a possibly negative stop. -/
def jsSliceTo {α : Type} (l : List α) (stop : Int) : List α :=
  l.take ((if stop < 0 then (l.length : Int) + stop else stop).toNat)

/-! ## `src/utils/path.ts` -/

/-- One step of the `normalizePath` stack loop: skip `.`, pop on `..`
(clamped at the root), push otherwise. -/
def normStep (stack : List String) (part : String) : List String :=
  if part = "." then stack
  else if part = ".." then stack.dropLast
  else stack ++ [part]

/-- The stack produced by the `normalizePath` loop. -/
def normSegs (parts : List String) : List String :=
  parts.foldl normStep []

/-- `p.split("/").filter(Boolean)`: the nonempty `/`-separated segments. -/
def pathSegs (p : String) : List String :=
  (jsSplitChar '/' p).filter (· ≠ "")

/-- `normalizePath` from `src/utils/path.ts`. -/
def normalizePath (p : String) : String :=
  if p = "" then "/"
  else
    let normalized := "/" ++ jsJoinChar '/' (normSegs (pathSegs p))
    if normalized = "" then "/" else normalized

/-- `joinPaths(...segments)` from `src/utils/path.ts`. -/
def joinPaths (segments : List String) : String :=
  normalizePath (jsJoinChar '/' segments)

/-- `expandTilde` from `src/utils/path.ts` (and its copy in `App.tsx`). -/
def expandTilde (p HOME : String) : String :=
  if p = "~" then HOME
  else if jsStartsWith "~/" p then HOME ++ String.mk (p.data.drop 1)
  else p

/-- Length of the longest common prefix of two segment lists (the `while`
loop of `relativePath`). -/
def commonPrefixLen : List String → List String → Nat
  | a :: as, b :: bs => if a = b then commonPrefixLen as bs + 1 else 0
  | _, _ => 0

/-- `normalizePath(p).slice(1).split("/").filter(Boolean)`: the segment
lists scanned by `relativePath`. -/
def relSegsOf (p : String) : List String :=
  (jsSplitChar '/' (String.mk ((normalizePath p).data.drop 1))).filter (· ≠ "")

/-- `relativePath` from `src/utils/path.ts`. -/
def relativePath (f t : String) : String :=
  if normalizePath f = normalizePath t then "."
  else
    let fromParts := relSegsOf f
    let toParts := relSegsOf t
    let i := commonPrefixLen fromParts toParts
    let up := (fromParts.drop i).map (fun _ => "..")
    let down := toParts.drop i
    let relParts := up ++ down
    if relParts = [] then "." else jsJoinChar '/' relParts

example : normalizePath "" = "/" := by decide
example : normalizePath "/home//user/../user/./Documents" = "/home/user/Documents" := by decide
example : normalizePath "a/../../b" = "/b" := by decide
example : relativePath "/home/user" "/home/user" = "." := by decide
example : relativePath "/home/user/Documents" "/home/user/Music" = "../Music" := by decide
example : joinPaths ["/home/user", "../Laura"] = "/home/Laura" := by decide
example : expandTilde "~/x" "/home/user" = "/home/user/x" := by decide
example : jsParseInt "+0" = some 0 := by decide
example : jsParseInt "12ab" = some 12 := by decide
example : jsParseInt "ab" = none := by decide
example : jsSplitStr "ab" "xabyabz" = ["x", "y", "z"] := by decide

/-! ## `src/fs.ts`: the virtual filesystem tree -/

/-- `FSNode` from `src/fs.ts`: a file (optional text content) or a
directory (ordered children). -/
inductive FSNode where
  | file (name : String) (content : Option String) : FSNode
  | dir (name : String) (children : List FSNode) : FSNode

def FSNode.name : FSNode → String
  | .file n _ => n
  | .dir n _ => n

/-- `node.type === "dir"`. -/
def FSNode.isDir : FSNode → Bool
  | .file _ _ => false
  | .dir _ _ => true

/-- `findNodeByPath` from `src/App.tsx`: walk the normalized segments,
failing on a missing child or on descending into a file. -/
def descendPath : FSNode → List String → Option FSNode
  | node, [] => some node
  | node, seg :: rest =>
    match node with
    | .file _ _ => none
    | .dir _ children =>
      match children.find? (fun c => c.name = seg) with
      | some c => descendPath c rest
      | none => none

def findNodeByPath (root : FSNode) (path : String) : Option FSNode :=
  let normalized := normalizePath path
  if normalized = "/" then some root
  else descendPath root ((jsSplitChar '/' (String.mk (normalized.data.drop 1))).filter (· ≠ ""))

/-- `isDirectory` from `src/App.tsx`. -/
def isDirectory (root : FSNode) (path : String) : Bool :=
  match findNodeByPath root path with
  | some n => n.isDir
  | none => false

/-- `getFileContentLocal` (`src/App.tsx` / `src/utils/fs.ts`): resolve a raw
argument (tilde- and relative-aware) and return the normalized path and the
content of the file there (`node.content || ""`). -/
def getFileContentLocal (fsys : FSNode) (HOME cwd raw : String) :
    Option (String × String) :=
  let expanded := if jsStartsWith "~" raw then expandTilde raw HOME else raw
  let filePath :=
    if jsStartsWith "/" expanded then normalizePath expanded
    else normalizePath (joinPaths [cwd, expanded])
  match findNodeByPath fsys filePath with
  | some (.file _ content) => some (filePath, content.getD "")
  | _ => none

/-! ## Command engine (`runSingle` in `src/App.tsx`) -/

structure LsEntry where
  name : String
  isDir : Bool
deriving DecidableEq

structure LsOutput where
  path : String
  entries : List LsEntry
  showAll : Bool
  long : Bool
  human : Bool
  blocks : Bool
deriving DecidableEq

structure RunResult where
  text : Option String
  ls : Option LsOutput
  error : Option String
deriving DecidableEq

/-- Code-point lexicographic comparison (the model of `localeCompare`). -/
def lexLe : List Char → List Char → Bool
  | [], _ => true
  | _ :: _, [] => false
  | a :: as, b :: bs => if a = b then lexLe as bs else decide (a.toNat < b.toNat)

/-- The comparator of the `ls` entries sort: directories before files,
then by name (`localeCompare`, modelled as code-point order). -/
def lsEntryLe (a b : LsEntry) : Prop :=
  if a.isDir ≠ b.isDir then a.isDir = true else lexLe a.name.data b.name.data = true

instance : DecidableRel lsEntryLe := fun a b => by
  unfold lsEntryLe; infer_instance

/-- A token of the form `-x...` that the flag-scanning loops consume
(`parts[i].startsWith("-") && parts[i].length > 1`). -/
def isFlagToken (t : String) : Bool :=
  jsStartsWith "-" t && t.length > 1

/-- `ls` flag-scanning loop: clustered `-alhs` flags, ignoring unknown
letters, stopping at the first non-flag token.  Returns the flags and the
remaining (positional) tokens. -/
def lsScanFlags : List String → (Bool × Bool × Bool × Bool) →
    (Bool × Bool × Bool × Bool) × List String
  | [], fl => (fl, [])
  | t :: ts, fl =>
    if isFlagToken t then
      let fl := (t.data.drop 1).foldl
        (fun (fl : Bool × Bool × Bool × Bool) c =>
          let (a, l, h, s) := fl
          if c = 'a' then (true, l, h, s)
          else if c = 'l' then (a, true, h, s)
          else if c = 'h' then (a, l, true, s)
          else if c = 's' then (a, l, h, true)
          else (a, l, h, s)) fl
      lsScanFlags ts fl
    else (fl, t :: ts)

/-- The `ls` target-path resolution (`App.tsx` lines 412-419). -/
def lsResolveTarget (HOME cwd rawT : String) : String :=
  let rawT := if jsStartsWith "~" rawT then expandTilde rawT HOME else rawT
  if jsStartsWith "/" rawT then normalizePath rawT
  else normalizePath (joinPaths [cwd, rawT])

/-- The filtered, sorted entry list of `ls` (`App.tsx` lines 430-436). -/
def lsEntriesOf (children : List FSNode) (showAll override : Bool) : List LsEntry :=
  ((children.filter fun c => showAll || override || !(jsStartsWith "." c.name)).map
    fun c => { name := c.name, isDir := c.isDir }).insertionSort lsEntryLe

/-- The flattened text form of an `ls` listing (`name` or `name/`). -/
def lsFlatten (entries : List LsEntry) : String :=
  jsJoinChar '\n' (entries.map fun e => if e.isDir then e.name ++ "/" else e.name)

/-- The `ls` target: current directory when no positional argument, else
the resolved re-joined argument. -/
def lsTarget (HOME cwd : String) (rest : List String) : String :=
  if rest = [] then cwd else lsResolveTarget HOME cwd (jsJoinChar ' ' rest)

/-- The body of the `ls` branch after flag scanning. -/
def lsCore (fsys : FSNode) (HOME cwd : String) (override : Bool)
    (showAll long human blocks : Bool) (rest : List String) : RunResult :=
  if !isDirectory fsys (lsTarget HOME cwd rest) then
    { text := none, ls := none,
      error := some ("ls: cannot access '" ++ jsJoinChar ' ' rest ++ "': No such directory") }
  else
    match findNodeByPath fsys (lsTarget HOME cwd rest) with
    | some (.dir _ children) =>
      { text := some (lsFlatten (lsEntriesOf children showAll override)),
        ls := some { path := lsTarget HOME cwd rest,
                     entries := lsEntriesOf children showAll override,
                     showAll := showAll, long := long, human := human, blocks := blocks },
        error := none }
    | _ =>
      { text := some "",
        ls := some { path := lsTarget HOME cwd rest, entries := [], showAll := showAll,
                     long := long, human := human, blocks := blocks },
        error := none }

/-- The `ls` branch of `runSingle`. -/
def runLs (fsys : FSNode) (HOME cwd : String) (override : Bool)
    (args : List String) : RunResult :=
  match lsScanFlags args (false, false, false, false) with
  | ((showAll, long, human, blocks), rest) =>
    lsCore fsys HOME cwd override showAll long human blocks rest

/-- The `cat` loop over file arguments, left to right: accumulate outputs
(with `==>` headers when more than one file is named) and overwrite the
error with each missing file's message (so the last one is kept). -/
def catLoop (fsys : FSNode) (HOME cwd : String) (multi : Bool) :
    List String → List String × Option String → List String × Option String
  | [], acc => acc
  | raw :: rest, (outs, err) =>
    match getFileContentLocal fsys HOME cwd raw with
    | none =>
      catLoop fsys HOME cwd multi rest (outs, some ("cat: " ++ raw ++ ": No such file"))
    | some (path, content) =>
      catLoop fsys HOME cwd multi rest
        (outs ++ (if multi then ["==> " ++ path ++ " <=="] else []) ++ [content], err)

/-- Assemble a text result from accumulated outputs and the error flag. -/
def textFinish (acc : List String × Option String) : RunResult :=
  { text := some (jsJoinChar '\n' acc.1), ls := none, error := acc.2 }

/-- The `cat` branch of `runSingle`. -/
def runCat (fsys : FSNode) (HOME cwd : String) (args : List String)
    (stdin : Option String) : RunResult :=
  if args.length ≥ 1 then
    textFinish (catLoop fsys HOME cwd (args.length > 1) args ([], none))
  else
    match stdin with
    | some t => { text := some t, ls := none, error := none }
    | none => { text := none, ls := none, error := some "cat: missing operand" }

/-- The `head`/`tail` count parsing (`-n N` with `parseInt`, or the `-N`
regex shorthand; default 10; `N` kept at 10 when `parseInt` yields `NaN`
though the index still advances). -/
def headTailParse (parts : List String) : Int × Nat :=
  if parts.get? 1 = some "-n" ∧ parts.length ≥ 3 then
    (match jsParseInt (parts.getD 2 "") with
     | some n => n
     | none => 10, 3)
  else
    match parts.get? 1 with
    | some t =>
      if jsStartsWith "-" t ∧ (t.data.drop 1) ≠ [] ∧ (t.data.drop 1).all Char.isDigit then
        (match jsParseInt (String.mk (t.data.drop 1)) with
         | some n => n
         | none => 10, 2)
      else (10, 1)
    | none => (10, 1)

/-- The `head`/`tail` output on a content source: first `num` lines via
`slice(0, num)` or last `num` lines via `slice(-num)`. -/
def htEmit (isHead : Bool) (num : Int) (content : String) : RunResult :=
  { text := some (jsJoinChar '\n'
      (if isHead then jsSliceTo (jsSplitChar '\n' content) num
       else jsSliceFrom (jsSplitChar '\n' content) (-num))),
    ls := none, error := none }

/-- The shared `head`/`tail` branch of `runSingle` (`App.tsx` 463-495). -/
def runHeadTail (fsys : FSNode) (HOME cwd : String) (isHead : Bool)
    (parts : List String) (stdin : Option String) : RunResult :=
  match headTailParse parts with
  | (num, idx) =>
    if parts.length > idx then
      match getFileContentLocal fsys HOME cwd (jsJoinChar ' ' (parts.drop idx)) with
      | none =>
        { text := none, ls := none,
          error := some ((if isHead then "head" else "tail") ++ ": " ++
            jsJoinChar ' ' (parts.drop idx) ++ ": No such file") }
      | some pc => htEmit isHead num pc.2
    else
      match stdin with
      | some content => htEmit isHead num content
      | none =>
        { text := none, ls := none,
          error := some ((if isHead then "head" else "tail") ++ ": missing operand") }

/-- JS `Array.prototype.join` with an arbitrary string separator. -/
def jsJoinStr (sep : String) (l : List String) : String :=
  String.mk (List.intercalate sep.data (l.map String.data))

/-- JS `hay.includes(needle)` (substring test). -/
def jsIncludes (needle hay : String) : Bool :=
  decide (needle.data <:+: hay.data)

/-- JS `String.prototype.toLowerCase` (ASCII). -/
def jsToLower (s : String) : String :=
  String.mk (s.data.map Char.toLower)

/-- `wc` line count: `content.split("\n").length`. -/
def wcLines (content : String) : Nat :=
  (jsSplitChar '\n' content).length

/-- `wc` word count: `trim() === "" ? 0 : trim().split(/\s+/).length`.
On a trimmed string, `split(/\s+/)` yields exactly the maximal
non-whitespace runs. -/
def wcWords (content : String) : Nat :=
  if jsTrim content = "" then 0
  else ((((jsTrim content).data.splitOnP jsIsSpace).filter (· ≠ [])).length)

/-- `wc` byte count: `new TextEncoder().encode(content).length`. -/
def wcBytes (content : String) : Nat :=
  content.utf8ByteSize

/-- `wc` flag-scanning loop (`-l -w -c` clustered, unknown letters
ignored). -/
def wcScanFlags : List String → (Bool × Bool × Bool) →
    (Bool × Bool × Bool) × List String
  | [], fl => (fl, [])
  | t :: ts, fl =>
    if isFlagToken t then
      let fl := (t.data.drop 1).foldl
        (fun (fl : Bool × Bool × Bool) c =>
          let (l, w, cc) := fl
          if c = 'l' then (true, w, cc)
          else if c = 'w' then (l, true, cc)
          else if c = 'c' then (l, w, true)
          else (l, w, cc)) fl
      wcScanFlags ts fl
    else (fl, t :: ts)

/-- One `wc` output row (`processContent` in the source). -/
def wcRow (flags : Bool × Bool × Bool) (l w b : Nat) (name : String) : String :=
  let (fl, fw, fc) := flags
  let partsOut :=
    if !fl && !fw && !fc then [toString l, toString w, toString b]
    else (if fl then [toString l] else []) ++ (if fw then [toString w] else []) ++
      (if fc then [toString b] else [])
  jsJoinChar ' ' (partsOut ++ [name])

/-- The `wc` loop over file arguments, left to right, carrying the running
totals, the per-file rows and the last missing-file error. -/
def wcLoop (fsys : FSNode) (HOME cwd : String) (flags : Bool × Bool × Bool) :
    List String → (Nat × Nat × Nat) × List String × Option String →
      (Nat × Nat × Nat) × List String × Option String
  | [], acc => acc
  | raw :: rest, (tot, outs, err) =>
    match getFileContentLocal fsys HOME cwd raw with
    | none =>
      wcLoop fsys HOME cwd flags rest (tot, outs, some ("wc: " ++ raw ++ ": No such file"))
    | some (path, content) =>
      let (tl, tw, tb) := tot
      wcLoop fsys HOME cwd flags rest
        ((tl + wcLines content, tw + wcWords content, tb + wcBytes content),
          outs ++ [wcRow flags (wcLines content) (wcWords content) (wcBytes content) path],
          err)

/-- The `wc` total row. -/
def wcTotalRow (flags : Bool × Bool × Bool) (tot : Nat × Nat × Nat) : String :=
  let (fl, fw, fc) := flags
  let (tl, tw, tb) := tot
  let totalParts :=
    if !fl && !fw && !fc then [toString tl, toString tw, toString tb, "total"]
    else (if fl then [toString tl] else []) ++ (if fw then [toString tw] else []) ++
      (if fc then [toString tb] else []) ++ ["total"]
  jsJoinChar ' ' totalParts

/-- Append the `total` row when more than one file argument was named, and
assemble the `wc` result. -/
def wcFinish (flags : Bool × Bool × Bool) (files : List String)
    (acc : (Nat × Nat × Nat) × List String × Option String) : RunResult :=
  { text := some (jsJoinChar '\n'
      (if files.length > 1 then acc.2.1 ++ [wcTotalRow flags acc.1] else acc.2.1)),
    ls := none, error := acc.2.2 }

/-- The `wc` stdin fallback (zero file arguments). -/
def runWcStdinCase (flags : Bool × Bool × Bool) (stdin : Option String) : RunResult :=
  match stdin with
  | some content =>
    { text := some (wcRow flags (wcLines content) (wcWords content) (wcBytes content) "-"),
      ls := none, error := none }
  | none => { text := none, ls := none, error := some "wc: missing file operand" }

/-- The `wc` branch of `runSingle` (`App.tsx` 496-559). -/
def runWc (fsys : FSNode) (HOME cwd : String) (args : List String)
    (stdin : Option String) : RunResult :=
  match wcScanFlags args (false, false, false) with
  | (flags, files) =>
    if files = [] then runWcStdinCase flags stdin
    else wcFinish flags files (wcLoop fsys HOME cwd flags files ((0, 0, 0), [], none))

/-- `grep` flag-scanning loop (`-i -c` clustered, unknown letters
ignored). -/
def grepScanFlags : List String → (Bool × Bool) → (Bool × Bool) × List String
  | [], fl => (fl, [])
  | t :: ts, fl =>
    if isFlagToken t then
      let fl := (t.data.drop 1).foldl
        (fun (fl : Bool × Bool) c =>
          let (i, cc) := fl
          if c = 'i' then (true, cc)
          else if c = 'c' then (i, true)
          else (i, cc)) fl
      grepScanFlags ts fl
    else (fl, t :: ts)

/-- `processLines` in the `grep` branch: either the matching lines
(prefixed `name:` when more than one file is named) or, with `-c`, the
match count. -/
def grepProcessLines (matcher : Option (String → Bool)) (pattern : String)
    (ignoreCase countFlag multi : Bool) (lines : List String)
    (name : Option String) : String :=
  let matchLine : String → Bool := fun line =>
    match matcher with
    | some m => m line
    | none =>
      if ignoreCase then jsIncludes (jsToLower pattern) (jsToLower line)
      else jsIncludes pattern line
  let matched := lines.filter matchLine
  if countFlag then
    match name with
    | some n => if multi then n ++ ":" ++ toString matched.length else toString matched.length
    | none => toString matched.length
  else
    jsJoinChar '\n' (matched.map fun line =>
      match name with
      | some n => if multi then n ++ ":" ++ line else line
      | none => line)

/-- The `grep` loop over file arguments, left to right. -/
def grepLoop (fsys : FSNode) (HOME cwd : String) (matcher : Option (String → Bool))
    (pattern : String) (ignoreCase countFlag multi : Bool) :
    List String → List String × Option String → List String × Option String
  | [], acc => acc
  | raw :: rest, (outs, err) =>
    match getFileContentLocal fsys HOME cwd raw with
    | none =>
      grepLoop fsys HOME cwd matcher pattern ignoreCase countFlag multi rest
        (outs, some ("grep: " ++ raw ++ ": No such file"))
    | some (path, content) =>
      grepLoop fsys HOME cwd matcher pattern ignoreCase countFlag multi rest
        (outs ++ [grepProcessLines matcher pattern ignoreCase countFlag multi
          (jsSplitChar '\n' content) (some path)], err)

/-- Stripping a matching pair of surrounding quotes from the `grep`
pattern argument. -/
def grepStripQuotes (pattern0 : String) : String :=
  if (jsStartsWith "'" pattern0 && (pattern0.data.getLast? = some '\'') &&
        pattern0.length ≥ 2) ||
      (jsStartsWith "\"" pattern0 && (pattern0.data.getLast? = some '"') &&
        pattern0.length ≥ 2) then
    String.mk (pattern0.data.dropLast.drop 1)
  else pattern0

/-- The `grep` body once flags and the pattern are fixed. -/
def grepCore (fsys : FSNode) (HOME cwd : String)
    (regex : String → Option (String → Bool)) (ignoreCase countFlag : Bool)
    (pattern : String) (filesGrep : List String) (stdin : Option String) : RunResult :=
  if filesGrep = [] then
    match stdin with
    | some t =>
      { text := some (grepProcessLines (regex pattern) pattern ignoreCase countFlag
          (filesGrep.length > 1) (jsSplitChar '\n' t) none), ls := none, error := none }
    | none => { text := none, ls := none, error := some "grep: missing file" }
  else
    textFinish (grepLoop fsys HOME cwd (regex pattern) pattern ignoreCase countFlag
      (filesGrep.length > 1) filesGrep ([], none))

/-- The `grep` branch of `runSingle` (`App.tsx` 560-638).  `regex` plays
the role of `new RegExp(pattern, ...)`: `none` models a pattern that fails
to compile (literal-substring fallback), `some m` a compiled matcher. -/
def runGrep (fsys : FSNode) (HOME cwd : String)
    (regex : String → Option (String → Bool)) (args : List String)
    (stdin : Option String) : RunResult :=
  match grepScanFlags args (false, false) with
  | ((ignoreCase, countFlag), rest) =>
    match rest with
    | [] => { text := none, ls := none, error := some "grep: missing pattern" }
    | pattern0 :: filesGrep =>
      if pattern0 = "" then
        { text := none, ls := none, error := some "grep: missing pattern" }
      else
        grepCore fsys HOME cwd regex ignoreCase countFlag (grepStripQuotes pattern0)
          filesGrep stdin

/-- The `cut` option-parsing loop over `-f`/`-d` tokens (`App.tsx`
647-668): returns the field-list argument, the delimiter and the remaining
file tokens. -/
def cutParse : List String → Option String → String →
    Option String × String × List String
  | [], fieldsArg, delim => (fieldsArg, delim, [])
  | p :: rest, fieldsArg, delim =>
    if jsStartsWith "-f" p then
      if p = "-f" then
        match rest with
        | [] => ((none : Option String), delim, ([] : List String))
        | v :: rest2 => cutParse rest2 (if v = "" then none else some v) delim
      else cutParse rest (some (String.mk (p.data.drop 2))) delim
    else if jsStartsWith "-d" p then
      if p = "-d" then
        match rest with
        | [] => (fieldsArg, "\t", ([] : List String))
        | v :: rest2 => cutParse rest2 fieldsArg (if v = "" then "\t" else v)
      else cutParse rest fieldsArg (String.mk (p.data.drop 2))
    else (fieldsArg, delim, p :: rest)

/-- The field numbers of `-f`: comma-split, `parseInt`ed, keeping the
positive non-`NaN` ones. -/
def cutFieldNums (fieldsArg : String) : List Int :=
  (jsSplitChar ',' fieldsArg).filterMap fun f =>
    match jsParseInt f with
    | some n => if n > 0 then some n else none
    | none => none

/-- One `cut` output line: split on the delimiter and re-join the selected
1-indexed fields (missing fields become `""`). -/
def cutLine (delimChar : String) (fieldNums : List Int) (line : String) : String :=
  let cols := jsSplitStr delimChar line
  jsJoinStr delimChar (fieldNums.map fun n =>
    if n - 1 < (cols.length : Int) then cols.getD (n - 1).toNat "" else "")

/-- The `cut` loop over file arguments, left to right. -/
def cutLoop (fsys : FSNode) (HOME cwd : String) (delimChar : String)
    (fieldNums : List Int) (multi : Bool) :
    List String → List String × Option String → List String × Option String
  | [], acc => acc
  | raw :: rest, (outs, err) =>
    match getFileContentLocal fsys HOME cwd raw with
    | none =>
      cutLoop fsys HOME cwd delimChar fieldNums multi rest
        (outs, some ("cut: " ++ raw ++ ": No such file"))
    | some (path, content) =>
      cutLoop fsys HOME cwd delimChar fieldNums multi rest
        (outs ++ (if multi then ["==> " ++ path ++ " <=="] else []) ++
          (jsSplitChar '\n' content).map (cutLine delimChar fieldNums), err)

/-- The `\t` escape recognition for the `cut` delimiter. -/
def cutDelimChar (delim : String) : String :=
  if delim = "\\t" then "\t" else delim

/-- The `cut` body after option parsing. -/
def cutCore (fsys : FSNode) (HOME cwd : String) (stdin : Option String)
    (fieldsArg : Option String) (delim : String) (filesCut : List String) : RunResult :=
  if fieldsArg.getD "" = "" then
    { text := none, ls := none, error := some "cut: missing -f option" }
  else if cutFieldNums (fieldsArg.getD "") = [] then
    { text := none, ls := none, error := some "cut: invalid field list" }
  else if filesCut = [] then
    match stdin with
    | some t =>
      { text := some (jsJoinChar '\n'
          ((jsSplitChar '\n' t).map
            (cutLine (cutDelimChar delim) (cutFieldNums (fieldsArg.getD ""))))),
        ls := none, error := none }
    | none => { text := none, ls := none, error := some "cut: missing file" }
  else
    textFinish (cutLoop fsys HOME cwd (cutDelimChar delim)
      (cutFieldNums (fieldsArg.getD "")) (filesCut.length > 1) filesCut ([], none))

/-- The `cut` branch of `runSingle` (`App.tsx` 639-715). -/
def runCut (fsys : FSNode) (HOME cwd : String) (args : List String)
    (stdin : Option String) : RunResult :=
  if args = [] then { text := none, ls := none, error := some "cut: missing operand" }
  else
    match cutParse args none "\t" with
    | (fieldsArg, delim, filesCut) => cutCore fsys HOME cwd stdin fieldsArg delim filesCut

/-! ## Dispatcher, pipeline executor and submit handlers -/

/-- The engine's per-call environment: the virtual filesystem, `HOME`, the
`showHiddenOverride` display state (never set by the app, so `false` in
practice) and the RegExp engine as an oracle: `regex pat = none` models a
pattern that fails to compile. -/
structure ShellEnv where
  fsys : FSNode
  HOME : String
  override : Bool
  regex : String → Option (String → Bool)

def unknownCommandMsg (cmd : String) : String :=
  "Unknown command: " ++ cmd ++ ". Supported: cd, pwd, ls, cat, head, tail, wc, grep, cut."

/-- `runSingle` from `src/App.tsx`, acting on the whitespace token list of
one pipeline stage. -/
def runSingleParts (env : ShellEnv) (cwd : String) (parts : List String)
    (stdin : Option String) : RunResult :=
  match parts with
  | [] => { text := none, ls := none, error := some (unknownCommandMsg "undefined") }
  | cmd :: _ =>
    if cmd = "cd" then { text := none, ls := none, error := some "cd: cannot be piped" }
    else if cmd = "ls" then runLs env.fsys env.HOME cwd env.override (parts.drop 1)
    else if cmd = "cat" then runCat env.fsys env.HOME cwd (parts.drop 1) stdin
    else if cmd = "head" then runHeadTail env.fsys env.HOME cwd true parts stdin
    else if cmd = "tail" then runHeadTail env.fsys env.HOME cwd false parts stdin
    else if cmd = "wc" then runWc env.fsys env.HOME cwd (parts.drop 1) stdin
    else if cmd = "grep" then runGrep env.fsys env.HOME cwd env.regex (parts.drop 1) stdin
    else if cmd = "cut" then runCut env.fsys env.HOME cwd (parts.drop 1) stdin
    else if cmd = "pwd" then { text := some cwd, ls := none, error := none }
    else { text := none, ls := none, error := some (unknownCommandMsg cmd) }

/-- `runSingle` on the raw stage string (`raw.split(" ").filter(Boolean)`). -/
def runSingle (env : ShellEnv) (cwd raw : String) (stdin : Option String) : RunResult :=
  runSingleParts env cwd ((jsSplitChar ' ' raw).filter (· ≠ "")) stdin

/-- Outcome of the multi-stage pipeline loop. -/
inductive StageOutcome where
  | failure (e : String) : StageOutcome
  | success (lastLs : Option LsOutput) (text : Option String) : StageOutcome
deriving DecidableEq

/-- The pipeline loop of `handleShellSubmit`: run stages left to right,
feeding the previous text (or flattened listing) as stdin, aborting on the
first stage error. -/
def runStages (env : ShellEnv) (cwd : String) :
    List String → Option String → Option LsOutput → StageOutcome
  | [], currentText, lastLs => .success lastLs currentText
  | stage :: rest, currentText, lastLs =>
    let out := runSingle env cwd stage currentText
    match out.error with
    | some e => .failure e
    | none =>
      let lastLs' := match out.ls with | some l => some l | none => lastLs
      let current' :=
        match out.text with
        | some t => some t
        | none =>
          match out.ls with
          | some l => some (lsFlatten l.entries)
          | none => currentText
      runStages env cwd rest current' lastLs'

/-- The result surfaced to the host: next current directory plus the
`text`/`listing`/`error` channels (all cleared at the start of a submit). -/
structure EvalResult where
  cwd : String
  text : Option String
  ls : Option LsOutput
  error : Option String
deriving DecidableEq

/-- `setCwd` from `src/App.tsx` (lines 223-234): normalize, accept only
directories, keep the old directory (with an error) otherwise. -/
def setCwd (fsys : FSNode) (cwd p : String) : String × Option String :=
  let normalized := normalizePath p
  if isDirectory fsys normalized then (normalized, none)
  else (cwd, some ("cd: not a directory: " ++ p))

/-- Splitting a submitted line into trimmed, nonempty pipeline stages. -/
def stageSplit (trimmed : String) : List String :=
  ((jsSplitChar '|' trimmed).map jsTrim).filter (· ≠ "")

/-- The tilde- and relative-aware resolution used by the `cd` branch
(`App.tsx` lines 759-765). -/
def cdResolve (HOME cwd targetRaw : String) : String :=
  let expandedRaw := if jsStartsWith "~" targetRaw then expandTilde targetRaw HOME else targetRaw
  if jsStartsWith "/" expandedRaw then normalizePath expandedRaw
  else normalizePath (joinPaths [cwd, expandedRaw])

/-- The single-stage `cd` branch of `handleShellSubmit` (lines 752-773),
acting on the token list (`cd` itself included). -/
def runCdLine (fsys : FSNode) (HOME cwd : String) (singleParts : List String) :
    String × Option String :=
  if singleParts.length = 1 then setCwd fsys cwd HOME
  else
    let targetRaw := jsJoinChar ' ' (singleParts.drop 1)
    let target := cdResolve HOME cwd targetRaw
    if isDirectory fsys target then setCwd fsys cwd target
    else (cwd, some ("cd: not a directory: " ++ targetRaw))

/-- The body of `handleShellSubmit` after trimming (shared between
`src/App.tsx` and the `useShell` hook): pipeline split, multi-stage
execution, or the single-command fallback with its `cd` special case. -/
def evalCore (env : ShellEnv) (cwd trimmed : String) : EvalResult :=
  let stages := stageSplit trimmed
  if stages.length > 1 then
    match runStages env cwd stages none none with
    | .failure e => { cwd := cwd, text := none, ls := none, error := some e }
    | .success lastLs currentText =>
      { cwd := cwd, text := currentText, ls := lastLs, error := none }
  else
    let singleParts := (jsSplitChar ' ' trimmed).filter (· ≠ "")
    if singleParts.head? = some "cd" then
      let (c, e) := runCdLine env.fsys env.HOME cwd singleParts
      { cwd := c, text := none, ls := none, error := e }
    else
      let out := runSingleParts env cwd singleParts none
      match out.error with
      | some e => { cwd := cwd, text := none, ls := none, error := some e }
      | none => { cwd := cwd, text := out.text, ls := out.ls, error := none }

/-- `handleShellSubmit` from `src/App.tsx`: trim and evaluate (no input
validator in this variant). -/
def handleShellSubmit (env : ShellEnv) (cwd input : String) : EvalResult :=
  let trimmed := jsTrim input
  if trimmed = "" then { cwd := cwd, text := none, ls := none, error := none }
  else evalCore env cwd trimmed

/-! ## Input validator (`useShell` hook variant) -/

/-- `trimmed.split(/\s+/)[0]` for the validator's command-name check. -/
def jsFirstWsToken (s : String) : String :=
  match s.data with
  | [] => ""
  | c :: _ =>
    if jsIsSpace c then "" else String.mk (s.data.takeWhile fun c => !jsIsSpace c)

def allowedCommands : List String :=
  ["cd", "pwd", "ls", "cat", "head", "tail", "wc", "grep", "cut"]

/-- The three checks of the `useShell` hook's input validation (applied to
the already-trimmed, nonempty line): dangerous characters after stripping
pipes, over-length input, and an unrecognized leading command name on a
pipe-free line. -/
def validateShellInput (trimmed : String) : Option String :=
  if (trimmed.data.filter (· ≠ '|')).any
      (fun c => c = '`' || c = ';' || c = '&' || c = '|' || c = '>' || c = '<' || c = '$') then
    some "Unsupported or potentially dangerous characters in command."
  else if trimmed.length > 200 then some "Command too long."
  else if ¬ (jsFirstWsToken trimmed ∈ allowedCommands) ∧ ¬ (trimmed.data.contains '|') then
    some ("Unknown command: " ++ jsFirstWsToken trimmed ++
      ". Supported: cd, pwd, ls, cat, head, tail, wc, grep, cut.")
  else none

/-- `handleShellSubmit` from the `useShell` hook: the same engine gated by
the input validator (this variant has no `showHiddenOverride`, i.e. it is
`false`). -/
def handleShellSubmitHook (env : ShellEnv) (cwd input : String) : EvalResult :=
  let trimmed := jsTrim input
  if trimmed = "" then { cwd := cwd, text := none, ls := none, error := none }
  else
    match validateShellInput trimmed with
    | some e => { cwd := cwd, text := none, ls := none, error := some e }
    | none => evalCore { env with override := false } cwd trimmed

/-! ## The concrete virtual filesystem (`src/fs.ts`) -/

def HOME : String := "/home/user"

/-- `fileSystem` from `src/fs.ts` (files there carry no `content` field). -/
def fileSystem : FSNode :=
  .dir "" [
    .dir "bin" [.file "bash" none, .file "ls" none, .file "cat" none, .file "echo" none],
    .dir "etc" [.file "hosts" none, .file "passwd" none,
      .dir "nginx" [.file "nginx.conf" none]],
    .dir "usr" [
      .dir "bin" [.file "python" none, .file "node" none],
      .dir "share" [.dir "man" []]],
    .dir "var" [
      .dir "log" [.file "syslog" none],
      .dir "tmp" []],
    .dir "tmp" [],
    .dir "home" [
      .dir "user" [
        .dir "Documents" [
          .dir "Thesis" [.file "chapter1.md" none, .file "chapter2.md" none],
          .dir "Notes" [.file "meeting.txt" none]],
        .dir "Projects" [
          .dir "webapp" [.file "index.html" none, .file "app.tsx" none],
          .dir "analysis" [.file "data.csv" none]],
        .dir "Pictures" [.file "vacation.jpg" none],
        .dir "Downloads" [.file "installer.sh" none],
        .dir "Music" [],
        .dir "Videos" [],
        .file ".bashrc" none,
        .file ".profile" none,
        .file "README.txt" none],
      .dir "Laura" [
        .dir "Desktop" [.file "welcome.txt" none, .file "setup_notes.md" none],
        .dir "Documents" [
          .dir "Research" [.file "paper1.pdf" none, .file "paper2.pdf" none,
            .dir "Data" [.file "experiment_results.csv" none,
              .file "sample_metadata.tsv" none]],
          .dir "Tutorials" [.file "react_hooks.md" none,
            .file "filesystem_visualizer.md" none],
          .file "todo.txt" none,
          .file "journal.md" none],
        .dir "Projects" [
          .dir "genomics" [.file "pipeline.sh" none, .file "README.md" none],
          .dir "visualizer" [.file "index.html" none, .file "app.tsx" none],
          .dir "blog" [.file "2025-07-01-intro.md" none, .file "2025-07-15-update.md" none]],
        .dir "Pictures" [.file "conference.jpg" none, .file "family.png" none],
        .dir "Music" [.dir "favorites" [.file "song1.mp3" none, .file "song2.mp3" none]],
        .dir "Downloads" [.file "dataset.zip" none, .file "script_runner.py" none],
        .dir "Scripts" [.file "deploy.sh" none, .file "cleanup.py" none],
        .dir "Config" [.file "settings.json" none,
          .dir "themes" [.file "dark.json" none, .file "light.json" none]],
        .dir ".config" [.file "app.conf" none],
        .file ".bashrc" none,
        .file ".zshrc" none,
        .file ".gitconfig" none,
        .file "recipes.md" none,
        .file "budget.xlsx" none,
        .file "archive.tar.gz" none]]]

/-- A RegExp oracle under which every pattern fails to compile, exercising
the documented literal-substring fallback. -/
def noRegex : String → Option (String → Bool) := fun _ => none

/-- The standard environment of the app. -/
def appEnv : ShellEnv :=
  { fsys := fileSystem, HOME := HOME, override := false, regex := noRegex }

example : isDirectory fileSystem "/home/user" = true := by decide
example : isDirectory fileSystem "/nonexistent" = false := by decide
example :
    (handleShellSubmit appEnv "/home/user" "cd /tmp").cwd = "/tmp" := by decide
example :
    (handleShellSubmit appEnv "/home/user" "cd /nonexistent") =
      { cwd := "/home/user", text := none, ls := none,
        error := some "cd: not a directory: /nonexistent" } := by decide
example :
    (handleShellSubmit appEnv "/home/user" "ls /bin").text =
      some "bash\ncat\necho\nls" := by decide
example :
    (handleShellSubmit appEnv "/home/user" "ls /bin | wc -l").text =
      some "4 -" := by decide
example :
    (handleShellSubmit appEnv "/home/user" "ls /tmp | wc -l").text =
      some "1 -" := by decide
example :
    (handleShellSubmit appEnv "/home/user" "pwd | cd /tmp").error =
      some "cd: cannot be piped" := by decide
example :
    (handleShellSubmit appEnv "/home/user" "bogus | cd /tmp").error =
      some (unknownCommandMsg "bogus") := by decide
example :
    (handleShellSubmit appEnv "/home/user" "tail -n +0 /etc/hosts") =
      { cwd := "/home/user", text := some "", ls := none, error := none } := by decide
example :
    (handleShellSubmit appEnv "/home/user" "wc README.txt .bashrc").text =
      some "1 0 0 /home/user/README.txt\n1 0 0 /home/user/.bashrc\n2 0 0 total" := by
  decide
example :
    (handleShellSubmitHook appEnv "/home/user" "rm -rf /").error =
      some (unknownCommandMsg "rm") := by decide
example :
    (handleShellSubmitHook appEnv "/home/user" "echo $PATH").error =
      some "Unsupported or potentially dangerous characters in command." := by decide

/-! ## List-level lemmas about `splitOn` -/

section SplitLemmas

variable {α : Type} [DecidableEq α]

theorem splitOn_sep (x : α) (l1 l2 : List α) :
    (l1 ++ x :: l2).splitOn x = l1.splitOn x ++ l2.splitOn x := by
  induction l1 with
  | nil => simp [List.splitOn, List.splitOnP_cons]
  | cons a as ih =>
    simp only [List.splitOn, List.cons_append, List.splitOnP_cons] at *
    by_cases h : a = x
    · simp [h, ih]
    · have hb : (a == x) = false := by simpa using h
      obtain ⟨h1, t1, heq⟩ :=
        List.exists_cons_of_ne_nil (List.splitOnP_ne_nil (· == x) as)
      simp [hb, ih, heq]

theorem not_mem_splitOn_self (x : α) (xs : List α) :
    ∀ l ∈ xs.splitOn x, x ∉ l := by
  induction xs with
  | nil =>
    intro l hl
    simp [List.splitOn, List.splitOnP_nil] at hl
    simp [hl]
  | cons a as ih =>
    intro l hl
    simp only [List.splitOn, List.splitOnP_cons] at hl
    by_cases h : a = x
    · simp only [h, beq_self_eq_true, if_true, List.mem_cons] at hl
      rcases hl with hl | hl
      · simp [hl]
      · exact ih l hl
    · have hb : (a == x) = false := by simpa using h
      obtain ⟨h1, t1, heq⟩ :=
        List.exists_cons_of_ne_nil (List.splitOnP_ne_nil (· == x) as)
      rw [hb] at hl
      rw [show List.splitOnP (· == x) as = h1 :: t1 from heq] at hl
      simp only [Bool.false_eq_true, if_false, List.modifyHead, List.mem_cons] at hl
      rcases hl with hl | hl
      · subst hl
        have hx : x ∉ h1 := ih h1 (by rw [List.splitOn, heq]; exact List.mem_cons_self _ _)
        simp only [List.mem_cons]
        rintro (rfl | hmem)
        · exact h rfl
        · exact hx hmem
      · exact ih l (by rw [List.splitOn, heq]; exact List.mem_cons_of_mem _ hl)

theorem splitOn_of_not_mem (x : α) (xs : List α) (h : x ∉ xs) :
    xs.splitOn x = [xs] :=
  List.splitOnP_eq_single _ _ (by
    intro y hy
    simp only [beq_iff_eq]
    rintro rfl
    exact h hy)

end SplitLemmas

/-! ## Lemmas about the JS split/join/trim models -/

theorem jsSplitChar_sep (c : Char) (l1 l2 : List Char) :
    jsSplitChar c (String.mk (l1 ++ c :: l2)) =
      jsSplitChar c (String.mk l1) ++ jsSplitChar c (String.mk l2) := by
  simp [jsSplitChar, splitOn_sep]

/-- `String.mk ∘ String.data` is the identity on lists of strings. -/
theorem map_mk_data (l : List String) :
    l.map (fun s => String.mk s.data) = l := by
  induction l with
  | nil => rfl
  | cons a as ih => simp [ih]

/-- Splitting a separator-free string is the identity (one chunk). -/
theorem jsSplitChar_of_not_mem (c : Char) (s : String) (h : c ∉ s.data) :
    jsSplitChar c s = [s] := by
  simp [jsSplitChar, splitOn_of_not_mem c s.data h]

/-- Joining then splitting recovers the chunks, provided none contains the
separator. -/
theorem jsSplitChar_jsJoinChar (c : Char) (l : List String)
    (h : ∀ s ∈ l, c ∉ s.data) (hne : l ≠ []) :
    jsSplitChar c (jsJoinChar c l) = l := by
  have : (List.intercalate [c] (l.map String.data)).splitOn c = l.map String.data := by
    apply List.splitOn_intercalate
    · intro m hm
      obtain ⟨s, hs, rfl⟩ := List.mem_map.mp hm
      exact h s hs
    · simpa using hne
  simp only [jsSplitChar, jsJoinChar, this]
  have h2 : List.map (String.mk ∘ String.data) l = l := by
    rw [show (String.mk ∘ String.data) = (fun s => String.mk s.data) from rfl]
    exact map_mk_data l
  simpa using h2

/-- Splitting then joining recovers the string. -/
theorem jsJoinChar_jsSplitChar (c : Char) (s : String) :
    jsJoinChar c (jsSplitChar c s) = s := by
  simp only [jsJoinChar, jsSplitChar, List.map_map]
  rw [show (String.data ∘ String.mk) = (id : List Char → List Char) from rfl,
    List.map_id, List.intercalate_splitOn]

/-! ## The normalizePath theory -/

theorem mem_foldl_normStep (parts : List String) :
    ∀ (acc : List String) (s : String), s ∈ parts.foldl normStep acc →
      s ∈ acc ∨ (s ∈ parts ∧ s ≠ "." ∧ s ≠ "..") := by
  induction parts with
  | nil => intro acc s hs; exact Or.inl hs
  | cons p ps ih =>
    intro acc s hs
    rcases ih (normStep acc p) s hs with h | h
    · unfold normStep at h
      split_ifs at h with h1 h2
      · exact Or.inl h
      · exact Or.inl (List.dropLast_subset acc h)
      · rcases List.mem_append.mp h with h | h
        · exact Or.inl h
        · simp only [List.mem_singleton] at h
          subst h
          exact Or.inr ⟨List.mem_cons_self _ _, h1, h2⟩
    · exact Or.inr ⟨List.mem_cons_of_mem _ h.1, h.2⟩

theorem mem_normSegs {parts : List String} {s : String}
    (hs : s ∈ normSegs parts) : s ∈ parts ∧ s ≠ "." ∧ s ≠ ".." := by
  rcases mem_foldl_normStep parts [] s hs with h | h
  · simp at h
  · exact h

theorem mem_pathSegs {p : String} {s : String} (hs : s ∈ pathSegs p) :
    s ≠ "" ∧ '/' ∉ s.data := by
  unfold pathSegs at hs
  have h1 := List.of_mem_filter hs
  have h2 := List.mem_of_mem_filter hs
  refine ⟨by simpa using h1, ?_⟩
  unfold jsSplitChar at h2
  obtain ⟨m, hm, rfl⟩ := List.mem_map.mp h2
  exact not_mem_splitOn_self '/' p.data m hm

theorem append_data_eq (s t : String) : (s ++ t).data = s.data ++ t.data :=
  String.data_append s t

theorem slash_append_ne_empty (s : String) : ("/" ++ s) ≠ "" := by
  intro h
  rw [String.ext_iff, append_data_eq] at h
  simp at h

/-- `normalizePath` always produces `"/"` followed by the joined stack. -/
theorem normalizePath_eq (p : String) :
    normalizePath p = "/" ++ jsJoinChar '/' (normSegs (pathSegs p)) := by
  unfold normalizePath
  by_cases hp : p = ""
  · subst hp
    simp only [if_true]
    have h1 : pathSegs "" = [] := by decide
    rw [h1]
    rw [show normSegs [] = [] from rfl]
    rw [String.ext_iff, append_data_eq]
    rfl
  · rw [if_neg hp, if_neg (slash_append_ne_empty _)]

/-- Splitting `"/" ++ join l` recovers `l` when the chunks are nonempty
and slash-free. -/
theorem pathSegs_slash_join (l : List String)
    (h : ∀ s ∈ l, s ≠ "" ∧ '/' ∉ s.data) :
    pathSegs ("/" ++ jsJoinChar '/' l) = l := by
  have hdata : ("/" ++ jsJoinChar '/' l) =
      String.mk ([] ++ '/' :: (jsJoinChar '/' l).data) := by
    rw [String.ext_iff, append_data_eq]; rfl
  unfold pathSegs
  rw [hdata, jsSplitChar_sep]
  rcases List.eq_nil_or_concat l with rfl | _
  · decide
  · have hl : l ≠ [] := by
      rintro rfl; simp at *
    have hjs : jsSplitChar '/' (String.mk (jsJoinChar '/' l).data) = l := by
      rw [show String.mk (jsJoinChar '/' l).data = jsJoinChar '/' l from rfl]
      exact jsSplitChar_jsJoinChar '/' l (fun s hs => (h s hs).2) hl
    rw [hjs]
    rw [show jsSplitChar '/' (String.mk []) = [""] from rfl]
    rw [show ([""] ++ l).filter (· ≠ "") = l.filter (· ≠ "") from rfl]
    rw [List.filter_eq_self.mpr]
    intro s hs
    simpa using (h s hs).1

theorem foldl_normStep_clean (m : List String)
    (hm : ∀ s ∈ m, s ≠ "." ∧ s ≠ "..") (acc : List String) :
    m.foldl normStep acc = acc ++ m := by
  induction m generalizing acc with
  | nil => simp
  | cons a as ih =>
    have ha := hm a (List.mem_cons_self _ _)
    rw [List.foldl_cons]
    rw [show normStep acc a = acc ++ [a] from by
      unfold normStep; rw [if_neg ha.1, if_neg ha.2]]
    rw [ih (fun s hs => hm s (List.mem_cons_of_mem _ hs)) (acc ++ [a])]
    simp

theorem normSegs_clean (l : List String)
    (h : ∀ s ∈ l, s ≠ "." ∧ s ≠ "..") : normSegs l = l :=
  foldl_normStep_clean l h []

theorem pathSegs_normalizePath (p : String) :
    pathSegs (normalizePath p) = normSegs (pathSegs p) := by
  rw [normalizePath_eq]
  apply pathSegs_slash_join
  intro s hs
  exact mem_pathSegs (mem_normSegs hs).1

/-- Idempotence of `normalizePath`. -/
theorem normalizePath_idem (p : String) :
    normalizePath (normalizePath p) = normalizePath p := by
  rw [normalizePath_eq (normalizePath p), pathSegs_normalizePath]
  rw [normSegs_clean _ (fun s hs => (mem_normSegs hs).2)]
  rw [normalizePath_eq p]

/-! ## The relativePath theory -/

/-- The common-prefix scan is within bounds and yields equal prefixes. -/
theorem commonPrefixLen_spec :
    ∀ (F T : List String), commonPrefixLen F T ≤ F.length ∧
      commonPrefixLen F T ≤ T.length ∧
      F.take (commonPrefixLen F T) = T.take (commonPrefixLen F T) := by
  intro F
  induction F with
  | nil => intro T; simp [commonPrefixLen]
  | cons a as ih =>
    intro T
    cases T with
    | nil => simp [commonPrefixLen]
    | cons b bs =>
      by_cases h : a = b
      · subst h
        obtain ⟨h1, h2, h3⟩ := ih bs
        refine ⟨?_, ?_, ?_⟩
        · simpa [commonPrefixLen] using Nat.succ_le_succ h1
        · simpa [commonPrefixLen] using Nat.succ_le_succ h2
        · simp [commonPrefixLen, h3]
      · simp [commonPrefixLen, h]

/-- `..` entries pop the stack one by one (clamped at the bottom). -/
theorem foldl_normStep_replicate (k : Nat) (acc : List String) :
    (List.replicate k "..").foldl normStep acc = acc.take (acc.length - k) := by
  induction k generalizing acc with
  | zero => simp
  | succ k ih =>
    rw [List.replicate_succ, List.foldl_cons]
    rw [show normStep acc ".." = acc.dropLast from rfl]
    rw [ih acc.dropLast, List.dropLast_eq_take, List.length_take]
    rw [List.take_take]
    congr 1
    omega

/-- Splitting `join l` recovers `l` when the chunks are nonempty and
slash-free (`l` nonempty). -/
theorem pathSegs_join (l : List String)
    (h : ∀ s ∈ l, s ≠ "" ∧ '/' ∉ s.data) (hne : l ≠ []) :
    pathSegs (jsJoinChar '/' l) = l := by
  unfold pathSegs
  rw [jsSplitChar_jsJoinChar '/' l (fun s hs => (h s hs).2) hne]
  rw [List.filter_eq_self.mpr]
  intro s hs
  simpa using (h s hs).1

/-- The `slice(1).split("/").filter(Boolean)` segment lists inside
`relativePath` are exactly the normalization stacks. -/
theorem relSegs_normalizePath (f : String) :
    relSegsOf f = normSegs (pathSegs f) := by
  unfold relSegsOf
  rw [normalizePath_eq f]
  have hdata : (("/" : String) ++ jsJoinChar '/' (normSegs (pathSegs f))).data =
      '/' :: (jsJoinChar '/' (normSegs (pathSegs f))).data := by
    rw [append_data_eq]; rfl
  rw [hdata]
  rw [show ('/' :: (jsJoinChar '/' (normSegs (pathSegs f))).data).drop 1 =
    (jsJoinChar '/' (normSegs (pathSegs f))).data from rfl]
  by_cases hn : normSegs (pathSegs f) = []
  · rw [hn]; decide
  · have : String.mk (jsJoinChar '/' (normSegs (pathSegs f))).data =
        jsJoinChar '/' (normSegs (pathSegs f)) := rfl
    rw [this]
    exact pathSegs_join _ (fun s hs => mem_pathSegs (mem_normSegs hs).1) hn

/-- `join([a, r])` is the string `a ++ "/" ++ r`. -/
theorem jsJoinChar_pair (c : Char) (s t : String) :
    jsJoinChar c [s, t] = String.mk (s.data ++ c :: t.data) := by
  unfold jsJoinChar
  congr 1
  simp [List.intercalate]

/-- Path segments of `a ++ "/" ++ r` decompose into both sides' segments. -/
theorem pathSegs_pair (a r : String) :
    pathSegs (jsJoinChar '/' [a, r]) = pathSegs a ++ pathSegs r := by
  rw [jsJoinChar_pair]
  unfold pathSegs
  rw [show String.mk (a.data ++ '/' :: r.data) =
    String.mk (a.data ++ '/' :: r.data) from rfl]
  rw [jsSplitChar_sep '/' a.data r.data]
  rw [List.filter_append]

/-- Processing appended segments resumes the normalization fold. -/
theorem normSegs_append (l1 l2 : List String) :
    normSegs (l1 ++ l2) = l2.foldl normStep (normSegs l1) := by
  unfold normSegs
  exact List.foldl_append _ _ _ _

/-- The resolution of `relativePath a b` against `a`:
`normalize(join(a, relativeTo(a, b))) = normalize(b)`. -/
theorem joinPaths_relativePath (a b : String) :
    normalizePath (joinPaths [a, relativePath a b]) = normalizePath b := by
  by_cases heq : normalizePath a = normalizePath b
  · rw [show relativePath a b = "." from by unfold relativePath; rw [if_pos heq]]
    rw [joinPaths, normalizePath_idem, normalizePath_eq (jsJoinChar '/' [a, "."]),
      pathSegs_pair]
    rw [show pathSegs "." = ["."] from by decide]
    rw [normSegs_append]
    rw [show (["."]).foldl normStep (normSegs (pathSegs a)) = normSegs (pathSegs a) from rfl]
    rw [← normalizePath_eq a]
    exact heq
  · obtain ⟨hiF, hiT, htake⟩ :=
      commonPrefixLen_spec (normSegs (pathSegs a)) (normSegs (pathSegs b))
    set F := normSegs (pathSegs a) with hF
    set T := normSegs (pathSegs b) with hT
    set i := commonPrefixLen F T with hi
    have hne : (F.drop i).map (fun _ => "..") ++ T.drop i ≠ [] := by
      intro hnil
      rw [List.append_eq_nil] at hnil
      have h1 : F.drop i = [] := by
        have := hnil.1
        rwa [List.map_eq_nil_iff] at this
      have h2 : T.drop i = [] := hnil.2
      have hFl : F.length ≤ i := by
        have := congrArg List.length h1
        simp at this
        omega
      have hTl : T.length ≤ i := by
        have := congrArg List.length h2
        simp at this
        omega
      have hFeqT : F = T := by
        have hFt : F.take i = F := List.take_of_length_le hFl
        have hTt : T.take i = T := List.take_of_length_le hTl
        rw [← hFt, ← hTt, htake]
      apply heq
      rw [normalizePath_eq a, normalizePath_eq b, ← hF, ← hT, hFeqT]
    have hrel : relativePath a b =
        jsJoinChar '/' ((F.drop i).map (fun _ => "..") ++ T.drop i) := by
      unfold relativePath
      rw [if_neg heq]
      simp only [relSegs_normalizePath, ← hF, ← hT, ← hi]
      rw [if_neg hne]
    rw [hrel, joinPaths, normalizePath_idem,
      normalizePath_eq (jsJoinChar '/' [a, _]), pathSegs_pair]
    have hclean : ∀ s ∈ (F.drop i).map (fun _ => "..") ++ T.drop i,
        s ≠ "" ∧ '/' ∉ s.data := by
      intro s hs
      rcases List.mem_append.mp hs with hs | hs
      · obtain ⟨_, _, rfl⟩ := List.mem_map.mp hs
        constructor
        · decide
        · decide
      · exact mem_pathSegs (mem_normSegs (List.drop_subset i T hs)).1
    rw [pathSegs_join _ hclean hne]
    rw [normSegs_append, List.foldl_append]
    have hup : ((F.drop i).map (fun _ => "..")).foldl normStep F = F.take i := by
      have hmap : (F.drop i).map (fun _ => "..") =
          List.replicate (F.drop i).length ".." := List.map_const' _ _
      rw [hmap, List.length_drop, foldl_normStep_replicate]
      congr 1
      omega
    rw [hup]
    have hdown : (T.drop i).foldl normStep (F.take i) = F.take i ++ T.drop i :=
      foldl_normStep_clean _
        (fun s hs => (mem_normSegs (List.drop_subset i T hs)).2) _
    rw [hdown, htake, List.take_append_drop]
    rw [normalizePath_eq b]

theorem relSegsOf_normalizePath (p : String) :
    relSegsOf (normalizePath p) = relSegsOf p := by
  unfold relSegsOf
  rw [normalizePath_idem]

/-- `relativePath` only sees its second argument through `normalizePath`. -/
theorem relativePath_normRight (a b : String) :
    relativePath a (normalizePath b) = relativePath a b := by
  unfold relativePath
  rw [normalizePath_idem, relSegsOf_normalizePath]

/-- C1: for every input string `p`, `normalizePath p` terminates with a
string that starts with `/`, whose segments contain no `.`/`..`/empty
entries (equivalently, the result is exactly `/` followed by its nonempty
segments re-joined), `normalizePath` is idempotent, and the empty string
normalizes to `/`. -/
theorem normalizePath_total_normal_idempotent (p : String) :
    (normalizePath p).data.head? = some '/' ∧
    (∀ s ∈ pathSegs (normalizePath p), s ≠ "" ∧ s ≠ "." ∧ s ≠ "..") ∧
    normalizePath p = "/" ++ jsJoinChar '/' (pathSegs (normalizePath p)) ∧
    normalizePath (normalizePath p) = normalizePath p ∧
    normalizePath "" = "/" := by
  refine ⟨?_, ?_, ?_, normalizePath_idem p, by decide⟩
  · rw [normalizePath_eq, append_data_eq]
    rfl
  · intro s hs
    rw [pathSegs_normalizePath] at hs
    have h1 := mem_normSegs hs
    have h2 := mem_pathSegs h1.1
    exact ⟨h2.1, h1.2⟩
  · rw [pathSegs_normalizePath]
    exact normalizePath_eq p

/-- C10: the round trip property of `relativePath`: resolving
`relativePath a b` against `a` yields `normalizePath b`, hence the claimed
expression `relativeTo(a, normalize(join(a, relativeTo(a,b))))` equals
`relativeTo(a, b)` (whose resolution against `a` is `normalize(b)`), and
identical from/to paths yield `"."`. -/
theorem relativePath_roundTrip (a b : String) :
    normalizePath (joinPaths [a, relativePath a b]) = normalizePath b ∧
    relativePath a (normalizePath (joinPaths [a, relativePath a b])) =
      relativePath a b ∧
    (normalizePath a = normalizePath b → relativePath a b = ".") := by
  refine ⟨joinPaths_relativePath a b, ?_, ?_⟩
  · rw [joinPaths_relativePath a b, relativePath_normRight]
  · intro h
    unfold relativePath
    rw [if_pos h]

/-- Witness for C10 at concrete paths. -/
theorem relativePath_roundTrip_witness :
    normalizePath (joinPaths ["/home/user", relativePath "/home/user" "/etc/nginx"]) =
      normalizePath "/etc/nginx" ∧
    relativePath "/home/user" "/home/user" = "." :=
  ⟨(relativePath_roundTrip "/home/user" "/etc/nginx").1,
    (relativePath_roundTrip "/home/user" "/home/user").2.2 (by decide)⟩

/-! ## C3: cd semantics -/

/-- `cdResolve` outputs are already normalized. -/
theorem cdResolve_normalized (HOME cwd raw : String) :
    normalizePath (cdResolve HOME cwd raw) = cdResolve HOME cwd raw := by
  unfold cdResolve
  generalize (if jsStartsWith "~" raw = true then expandTilde raw HOME else raw) = e
  show normalizePath (if jsStartsWith "/" e = true then normalizePath e
      else normalizePath (joinPaths [cwd, e])) =
    (if jsStartsWith "/" e = true then normalizePath e
      else normalizePath (joinPaths [cwd, e]))
  split_ifs with h
  · apply normalizePath_idem
  · rw [joinPaths]
    apply normalizePath_idem

/-- C3: a single-stage `cd` replaces the current directory with the
normalized, tilde- and relative-aware resolution of its argument exactly
when that target is a directory of the virtual filesystem; otherwise the
current directory is unchanged and a not-a-directory error is returned;
with no argument it resolves to (the normalization of) the home path. -/
theorem runCdLine_spec (fsys : FSNode) (home cwd : String)
    (argTokens : List String) :
    runCdLine fsys home cwd ("cd" :: argTokens) =
      match argTokens with
      | [] =>
        if isDirectory fsys (normalizePath home) then
          (normalizePath home, (none : Option String))
        else (cwd, some ("cd: not a directory: " ++ home))
      | _ :: _ =>
        if isDirectory fsys (cdResolve home cwd (jsJoinChar ' ' argTokens)) then
          (cdResolve home cwd (jsJoinChar ' ' argTokens), (none : Option String))
        else (cwd, some ("cd: not a directory: " ++ jsJoinChar ' ' argTokens)) := by
  cases argTokens with
  | nil => rfl
  | cons a rest =>
    show runCdLine fsys home cwd ("cd" :: a :: rest) = _
    unfold runCdLine
    rw [if_neg (by simp)]
    by_cases hd : isDirectory fsys (cdResolve home cwd (jsJoinChar ' ' (a :: rest)))
    · rw [show (("cd" :: a :: rest).drop 1) = a :: rest from rfl]
      rw [if_pos hd]
      unfold setCwd
      rw [cdResolve_normalized, if_pos hd]
      simp [hd]
    · rw [show (("cd" :: a :: rest).drop 1) = a :: rest from rfl]
      rw [if_neg hd]
      simp [hd]

/-! ## C2: cd inside a pipeline -/

/-- A stage whose first token is `cd` always produces the
`cd: cannot be piped` error, whatever the stdin and state. -/
theorem runSingle_cd_error (env : ShellEnv) (cwd stage : String)
    (stdin : Option String)
    (hcd : ((jsSplitChar ' ' stage).filter (· ≠ "")).head? = some "cd") :
    runSingle env cwd stage stdin =
      { text := none, ls := none, error := some "cd: cannot be piped" } := by
  unfold runSingle runSingleParts
  cases h : (jsSplitChar ' ' stage).filter (· ≠ "") with
  | nil => rw [h] at hcd; simp at hcd
  | cons c rest =>
    rw [h] at hcd
    simp only [List.head?_cons, Option.some_inj] at hcd
    subst hcd
    simp

/-- Running appended stage lists composes sequentially. -/
theorem runStages_append (env : ShellEnv) (cwd : String) (l1 l2 : List String) :
    ∀ (ct : Option String) (ll : Option LsOutput),
      runStages env cwd (l1 ++ l2) ct ll =
        match runStages env cwd l1 ct ll with
        | .failure e => .failure e
        | .success ll' ct' => runStages env cwd l2 ct' ll' := by
  induction l1 with
  | nil => intro ct ll; rfl
  | cons s l1 ih =>
    intro ct ll
    rw [List.cons_append]
    cases he : (runSingle env cwd s ct).error with
    | some e => simp only [runStages, he]
    | none =>
      simp only [runStages, he]
      exact ih _ _

/-- Any pipeline containing a `cd` stage fails. -/
theorem runStages_cd_fails (env : ShellEnv) (cwd : String) :
    ∀ (stages : List String) (ct : Option String) (ll : Option LsOutput),
      (∃ s ∈ stages, ((jsSplitChar ' ' s).filter (· ≠ "")).head? = some "cd") →
      ∃ e, runStages env cwd stages ct ll = .failure e := by
  intro stages
  induction stages with
  | nil => intro ct ll h; simp at h
  | cons s rest ih =>
    intro ct ll h
    obtain ⟨t, ht, hcd⟩ := h
    rcases List.mem_cons.mp ht with rfl | ht
    · refine ⟨"cd: cannot be piped", ?_⟩
      unfold runStages
      rw [runSingle_cd_error env cwd t ct hcd]
    · cases he : (runSingle env cwd s ct).error with
      | some e => exact ⟨e, by simp only [runStages, he]⟩
      | none =>
        obtain ⟨e, hrec⟩ := ih _ _ ⟨t, ht, hcd⟩
        exact ⟨e, by simp only [runStages, he]; exact hrec⟩

/-- C2 (amended): a submitted line with at least two pipeline stages, one
of which has first token `cd`, always fails with no output kept; the error
is `cd: cannot be piped` provided the stages before the `cd` stage all
succeed (an earlier failing stage's error wins otherwise). -/
theorem pipeline_cd_rejected (env : ShellEnv) (cwd input : String)
    (pre post : List String) (s : String)
    (hsplit : stageSplit (jsTrim input) = pre ++ s :: post)
    (hcd : ((jsSplitChar ' ' s).filter (· ≠ "")).head? = some "cd")
    (hlen : 2 ≤ (stageSplit (jsTrim input)).length) :
    (∃ e, handleShellSubmit env cwd input =
      { cwd := cwd, text := none, ls := none, error := some e }) ∧
    (∀ (a : Option LsOutput) (b : Option String),
      runStages env cwd pre none none = .success a b →
      handleShellSubmit env cwd input =
        { cwd := cwd, text := none, ls := none, error := some "cd: cannot be piped" }) := by
  have htrim : jsTrim input ≠ "" := by
    intro h0
    rw [h0] at hlen
    rw [show stageSplit "" = [] from by decide] at hlen
    simp at hlen
  have hgt : (stageSplit (jsTrim input)).length > 1 := hlen
  have hmain : handleShellSubmit env cwd input =
      match runStages env cwd (pre ++ s :: post) none none with
      | .failure e => { cwd := cwd, text := none, ls := none, error := some e }
      | .success lastLs currentText =>
        { cwd := cwd, text := currentText, ls := lastLs, error := none } := by
    unfold handleShellSubmit
    rw [if_neg htrim]
    unfold evalCore
    rw [if_pos hgt]
    rw [hsplit]
  constructor
  · obtain ⟨e, he⟩ := runStages_cd_fails env cwd (pre ++ s :: post) none none
      ⟨s, by simp, hcd⟩
    exact ⟨e, by rw [hmain, he]⟩
  · intro a b hpre
    rw [hmain, runStages_append, hpre]
    have hstep : runStages env cwd (s :: post) b a = .failure "cd: cannot be piped" := by
      have := runSingle_cd_error env cwd s b hcd
      simp only [runStages, this]
    show (match runStages env cwd (s :: post) b a with
      | StageOutcome.failure e =>
        ({ cwd := cwd, text := none, ls := none, error := some e } : EvalResult)
      | StageOutcome.success lastLs currentText =>
        { cwd := cwd, text := currentText, ls := lastLs, error := none }) = _
    rw [hstep]

/-- Witness for C2's amended theorem: `pwd | cd /tmp` fails with the
pipe error and no output. -/
theorem pipeline_cd_rejected_witness :
    handleShellSubmit appEnv "/home/user" "pwd | cd /tmp" =
      { cwd := "/home/user", text := none, ls := none,
        error := some "cd: cannot be piped" } :=
  (pipeline_cd_rejected appEnv "/home/user" "pwd | cd /tmp" ["pwd"] [] "cd /tmp"
    (by decide) (by decide) (by decide)).2 none (some "/home/user") (by decide)

/-- Counterexample to C2 as stated: in `bogus | cd /tmp` the second stage's
first token is `cd`, yet the line's error is the unknown-command error of
the first stage, not `cd: cannot be piped`. -/
theorem pipeline_cd_counterexample :
    stageSplit (jsTrim "bogus | cd /tmp") = ["bogus", "cd /tmp"] ∧
    ((jsSplitChar ' ' "cd /tmp").filter (· ≠ "")).head? = some "cd" ∧
    (handleShellSubmit appEnv "/home/user" "bogus | cd /tmp").error =
      some (unknownCommandMsg "bogus") ∧
    (handleShellSubmit appEnv "/home/user" "bogus | cd /tmp").error ≠
      some "cd: cannot be piped" := by
  refine ⟨by decide, by decide, by decide, by decide⟩

/-! ## C4: the input validator -/

/-- C4: on a (trimmed, nonempty) submitted line, the validator rejects
exactly when (1) the line with pipe characters stripped contains one of
the dangerous characters, or (2) the length exceeds 200, or (3) the first
whitespace-delimited token is not one of the nine commands and the line
has no pipe; when it passes, the line reaches the pipeline executor
unchanged, and when it rejects, the error is the line's whole result. -/
theorem validateShellInput_spec (env : ShellEnv) (cwd input : String)
    (hne : jsTrim input ≠ "") :
    ((validateShellInput (jsTrim input)).isSome = true ↔
      (∃ c ∈ (jsTrim input).data.filter (· ≠ '|'),
        c ∈ ['`', ';', '&', '|', '>', '<', '$']) ∨
      200 < (jsTrim input).length ∨
      (jsFirstWsToken (jsTrim input) ∉ allowedCommands ∧
        ¬ (jsTrim input).data.contains '|' = true)) ∧
    (validateShellInput (jsTrim input) = none →
      handleShellSubmitHook env cwd input =
        evalCore { env with override := false } cwd (jsTrim input)) ∧
    (∀ e, validateShellInput (jsTrim input) = some e →
      handleShellSubmitHook env cwd input =
        { cwd := cwd, text := none, ls := none, error := some e }) := by
  refine ⟨?_, ?_, ?_⟩
  · have hchars : ∀ (l : List Char),
        (l.any (fun c => c = '`' || c = ';' || c = '&' || c = '|' ||
          c = '>' || c = '<' || c = '$') = true) ↔
        ∃ c ∈ l, c ∈ ['`', ';', '&', '|', '>', '<', '$'] := by
      intro l
      rw [List.any_eq_true]
      constructor
      · rintro ⟨c, hc, hcc⟩
        refine ⟨c, hc, ?_⟩
        simp only [Bool.or_eq_true, decide_eq_true_eq] at hcc
        simp only [List.mem_cons, List.not_mem_nil, or_false]
        tauto
      · rintro ⟨c, hc, hcc⟩
        refine ⟨c, hc, ?_⟩
        simp only [List.mem_cons, List.not_mem_nil, or_false] at hcc
        simp only [Bool.or_eq_true, decide_eq_true_eq]
        tauto
    unfold validateShellInput
    split_ifs with h1 h2 h3
    · simp only [Option.isSome_some, true_iff]
      exact Or.inl ((hchars _).mp h1)
    · simp only [Option.isSome_some, true_iff]
      exact Or.inr (Or.inl h2)
    · simp only [Option.isSome_some, true_iff]
      exact Or.inr (Or.inr h3)
    · simp only [Option.isSome_none, Bool.false_eq_true, false_iff]
      intro hdisj
      rcases hdisj with hA | hB | hC
      · exact h1 ((hchars _).mpr hA)
      · exact h2 hB
      · exact h3 hC
  · intro hok
    unfold handleShellSubmitHook
    rw [if_neg hne, hok]
  · intro e he
    unfold handleShellSubmitHook
    rw [if_neg hne, he]

/-- Witness for C4: the hook rejects `rm -rf /x` as an unknown command
before the engine runs. -/
theorem validateShellInput_spec_witness :
    handleShellSubmitHook appEnv "/home/user" "rm -rf /x" =
      { cwd := "/home/user", text := none, ls := none,
        error := some (unknownCommandMsg "rm") } :=
  (validateShellInput_spec appEnv "/home/user" "rm -rf /x" (by decide)).2.2
    (unknownCommandMsg "rm") (by decide)

/-! ## C5: hidden entries and `ls -a` -/

theorem jsJoinChar_single (c : Char) (s : String) : jsJoinChar c [s] = s := by
  simp [jsJoinChar, List.intercalate]

theorem isDirectory_dir_exists {fsys : FSNode} {p : String}
    (h : isDirectory fsys p = true) :
    ∃ name children, findNodeByPath fsys p = some (.dir name children) := by
  unfold isDirectory at h
  cases hf : findNodeByPath fsys p with
  | none => rw [hf] at h; simp at h
  | some n =>
    cases n with
    | file nm ct => rw [hf] at h; simp [FSNode.isDir] at h
    | dir nm ch => exact ⟨nm, ch, rfl⟩

/-- Membership in the `ls` entry list. -/
theorem mem_lsEntriesOf (children : List FSNode) (sa ov : Bool) (e : LsEntry) :
    e ∈ lsEntriesOf children sa ov ↔
      ∃ c ∈ children, (sa || ov || !(jsStartsWith "." c.name)) = true ∧
        e = { name := c.name, isDir := c.isDir } := by
  unfold lsEntriesOf
  rw [List.mem_insertionSort]
  rw [List.mem_map]
  constructor
  · rintro ⟨c, hc, rfl⟩
    exact ⟨c, (List.mem_filter.mp hc).1, (List.mem_filter.mp hc).2, rfl⟩
  · rintro ⟨c, hc, hpred, rfl⟩
    exact ⟨c, List.mem_filter.mpr ⟨hc, hpred⟩, rfl⟩

theorem lsScanFlags_noflag (d : String) (hflag : isFlagToken d = false)
    (fl : Bool × Bool × Bool × Bool) :
    lsScanFlags [d] fl = (fl, [d]) := by
  unfold lsScanFlags
  rw [hflag]
  simp

theorem lsScanFlags_dash_a (d : String) (hflag : isFlagToken d = false) :
    lsScanFlags ["-a", d] (false, false, false, false) =
      ((true, false, false, false), [d]) := by
  show lsScanFlags ["-a", d] (false, false, false, false) = _
  unfold lsScanFlags
  rw [show isFlagToken "-a" = true from by decide, if_pos rfl]
  rw [lsScanFlags_noflag d hflag]
  rfl

/-- C5: over the same directory, the `ls -a` entry set is a superset of the
plain `ls` entry set; the plain listing omits every dot-prefixed name; and
an `-a` entry is a plain entry exactly when its name does not start with
a dot (the two sets differ exactly by the dot entries). -/
theorem ls_hidden_spec (fsys : FSNode) (home cwd d : String)
    (hflag : isFlagToken d = false)
    (hdir : isDirectory fsys (lsResolveTarget home cwd d) = true) :
    ∃ name children,
      findNodeByPath fsys (lsResolveTarget home cwd d) =
        some (.dir name children) ∧
      (runLs fsys home cwd false ["-a", d]).ls =
        some { path := lsResolveTarget home cwd d,
               entries := lsEntriesOf children true false, showAll := true,
               long := false, human := false, blocks := false } ∧
      (runLs fsys home cwd false [d]).ls =
        some { path := lsResolveTarget home cwd d,
               entries := lsEntriesOf children false false, showAll := false,
               long := false, human := false, blocks := false } ∧
      (∀ e ∈ lsEntriesOf children false false, e ∈ lsEntriesOf children true false) ∧
      (∀ e ∈ lsEntriesOf children false false, ¬ jsStartsWith "." e.name = true) ∧
      (∀ e ∈ lsEntriesOf children true false,
        (e ∈ lsEntriesOf children false false ↔ ¬ jsStartsWith "." e.name = true)) := by
  obtain ⟨name, children, hfind⟩ := isDirectory_dir_exists hdir
  have htgt : lsTarget home cwd [d] = lsResolveTarget home cwd d := by
    unfold lsTarget
    rw [if_neg (by simp), jsJoinChar_single]
  have hcore : ∀ sa l h s, lsCore fsys home cwd false sa l h s [d] =
      { text := some (lsFlatten (lsEntriesOf children sa false)),
        ls := some { path := lsResolveTarget home cwd d,
                     entries := lsEntriesOf children sa false,
                     showAll := sa, long := l, human := h, blocks := s },
        error := none } := by
    intro sa l h s
    unfold lsCore
    rw [htgt, hdir, hfind]
    rw [show (!true) = false from rfl]
    rw [if_neg (by simp)]
  refine ⟨name, children, hfind, ?_, ?_, ?_, ?_, ?_⟩
  · unfold runLs
    rw [lsScanFlags_dash_a d hflag]
    show (lsCore fsys home cwd false true false false false [d]).ls = _
    rw [hcore]
  · unfold runLs
    rw [lsScanFlags_noflag d hflag]
    show (lsCore fsys home cwd false false false false false [d]).ls = _
    rw [hcore]
  · intro e he
    rw [mem_lsEntriesOf] at he ⊢
    obtain ⟨c, hc, _, rfl⟩ := he
    exact ⟨c, hc, by simp, rfl⟩
  · intro e he
    rw [mem_lsEntriesOf] at he
    obtain ⟨c, hc, hpred, rfl⟩ := he
    simpa using hpred
  · intro e he
    rw [mem_lsEntriesOf] at he
    obtain ⟨c, hc, _, rfl⟩ := he
    rw [mem_lsEntriesOf]
    constructor
    · rintro ⟨c2, hc2, hpred2, heq2⟩
      have : jsStartsWith "." c2.name = false := by simpa using hpred2
      rw [show ({ name := c.name, isDir := c.isDir } : LsEntry).name = c.name from rfl]
      have hnames : c.name = c2.name := congrArg LsEntry.name heq2
      rw [hnames, this]
      simp
    · intro hdot
      refine ⟨c, hc, ?_, rfl⟩
      rw [show ({ name := c.name, isDir := c.isDir } : LsEntry).name = c.name from rfl] at hdot
      simp only [Bool.or_eq_true, Bool.not_eq_true']
      simpa using hdot

/-- Witness for C5 at the home directory of the app filesystem. -/
theorem ls_hidden_spec_witness :
    isFlagToken "/home/user" = false ∧
    isDirectory fileSystem (lsResolveTarget HOME "/" "/home/user") = true ∧
    ∃ name children, findNodeByPath fileSystem (lsResolveTarget HOME "/" "/home/user") =
      some (.dir name children) := by
  refine ⟨by decide, by decide, ?_⟩
  obtain ⟨n, c, h, _⟩ := ls_hidden_spec fileSystem HOME "/" "/home/user"
    (by decide) (by decide)
  exact ⟨n, c, h⟩

/-! ## C6: wc per-file rows and the total row -/

/-- Resolved path and content of a found file argument. -/
def wcFileInfo (fsys : FSNode) (HOME cwd x : String) : String × String :=
  (getFileContentLocal fsys HOME cwd x).getD ("", "")

theorem wcScanFlags_nofirst (a : String) (rest : List String)
    (h : isFlagToken a = false) (fl : Bool × Bool × Bool) :
    wcScanFlags (a :: rest) fl = (fl, a :: rest) := by
  unfold wcScanFlags
  rw [h]
  simp

theorem wcFinish_eq (flags : Bool × Bool × Bool) (files : List String)
    (tot : Nat × Nat × Nat) (outs : List String) (err : Option String) :
    wcFinish flags files (tot, outs, err) =
      { text := some (jsJoinChar '\n'
          (if files.length > 1 then outs ++ [wcTotalRow flags tot] else outs)),
        ls := none, error := err } := rfl

theorem runWc_eq (fsys : FSNode) (home cwd : String) (args : List String)
    (stdin : Option String) (flags : Bool × Bool × Bool) (files : List String)
    (hscan : wcScanFlags args (false, false, false) = (flags, files)) :
    runWc fsys home cwd args stdin =
      if files = [] then runWcStdinCase flags stdin
      else wcFinish flags files (wcLoop fsys home cwd flags files ((0, 0, 0), [], none)) := by
  unfold runWc
  rw [hscan]

theorem wcLoop_all_found (fsys : FSNode) (home cwd : String)
    (flags : Bool × Bool × Bool) (files : List String)
    (hfound : ∀ x ∈ files, (getFileContentLocal fsys home cwd x).isSome = true) :
    ∀ tl tw tb outs err,
      wcLoop fsys home cwd flags files ((tl, tw, tb), outs, err) =
        ((tl + (files.map fun x => wcLines (wcFileInfo fsys home cwd x).2).sum,
          tw + (files.map fun x => wcWords (wcFileInfo fsys home cwd x).2).sum,
          tb + (files.map fun x => wcBytes (wcFileInfo fsys home cwd x).2).sum),
         outs ++ files.map (fun x =>
           wcRow flags (wcLines (wcFileInfo fsys home cwd x).2)
             (wcWords (wcFileInfo fsys home cwd x).2)
             (wcBytes (wcFileInfo fsys home cwd x).2)
             (wcFileInfo fsys home cwd x).1),
         err) := by
  induction files with
  | nil => intro tl tw tb outs err; simp [wcLoop]
  | cons x xs ih =>
    intro tl tw tb outs err
    have hx := hfound x (List.mem_cons_self _ _)
    obtain ⟨⟨p, c⟩, hpc⟩ := Option.isSome_iff_exists.mp hx
    have hinfo : wcFileInfo fsys home cwd x = (p, c) := by
      unfold wcFileInfo; rw [hpc]; rfl
    unfold wcLoop
    rw [hpc]
    show wcLoop fsys home cwd flags xs
      ((tl + wcLines c, tw + wcWords c, tb + wcBytes c),
       outs ++ [wcRow flags (wcLines c) (wcWords c) (wcBytes c) p], err) = _
    rw [ih (fun y hy => hfound y (List.mem_cons_of_mem _ hy))]
    simp only [hinfo, List.map_cons, List.sum_cons]
    simp [Nat.add_assoc, List.append_assoc]

/-- C6: `wc` with no flags on two or more existing files emits, per file,
the line `lines words bytes path` (counts as in the source: `\n`-split
segments, whitespace words after trimming, UTF-8 bytes; `path` the
resolved path), followed by a final row holding the component-wise sums
and the word `total`; no error is reported. -/
theorem runWc_multifile (fsys : FSNode) (home cwd : String)
    (stdin : Option String) (args : List String) (h2 : 2 ≤ args.length)
    (hnf : ∀ x ∈ args, isFlagToken x = false)
    (hfound : ∀ x ∈ args, (getFileContentLocal fsys home cwd x).isSome = true) :
    runWc fsys home cwd args stdin =
      { text := some (jsJoinChar '\n'
          (args.map (fun x =>
            wcRow (false, false, false)
              (wcLines (wcFileInfo fsys home cwd x).2)
              (wcWords (wcFileInfo fsys home cwd x).2)
              (wcBytes (wcFileInfo fsys home cwd x).2)
              (wcFileInfo fsys home cwd x).1) ++
          [wcTotalRow (false, false, false)
            ((args.map fun x => wcLines (wcFileInfo fsys home cwd x).2).sum,
             (args.map fun x => wcWords (wcFileInfo fsys home cwd x).2).sum,
             (args.map fun x => wcBytes (wcFileInfo fsys home cwd x).2).sum)])),
        ls := none, error := none } := by
  cases args with
  | nil => simp at h2
  | cons a rest =>
    rw [runWc_eq fsys home cwd (a :: rest) stdin (false, false, false) (a :: rest)
      (wcScanFlags_nofirst a rest (hnf a (List.mem_cons_self _ _)) _)]
    rw [if_neg (by simp)]
    rw [wcLoop_all_found fsys home cwd (false, false, false) (a :: rest) hfound]
    rw [wcFinish_eq]
    rw [if_pos (by simpa using h2)]
    simp

/-- A tiny filesystem with file contents, exercising the counting paths. -/
def demoFs : FSNode :=
  .dir "" [
    .dir "home" [
      .dir "user" [
        .file "a.txt" (some "hello world\nfoo"),
        .file "b.txt" (some "x y z")]]]

/-- Witness for C6: two concrete files with contents. -/
theorem runWc_multifile_witness :
    runWc demoFs "/home/user" "/home/user" ["a.txt", "b.txt"] none =
      { text := some ("2 3 15 /home/user/a.txt\n1 3 5 /home/user/b.txt\n3 6 20 total"),
        ls := none, error := none } := by
  rw [runWc_multifile demoFs "/home/user" "/home/user" none ["a.txt", "b.txt"]
    (by decide) (by decide) (by decide)]
  decide

/-! ## C7: multi-file commands keep going past a missing file -/

/-- The last element of a list satisfying `p` (the value the loops'
error-overwriting converges to). -/
def lastFound? {α : Type} (p : α → Bool) : List α → Option α
  | [] => none
  | x :: xs =>
    match lastFound? p xs with
    | some y => some y
    | none => if p x then some x else none

theorem lastFound?_sound {α : Type} (p : α → Bool) :
    ∀ (l : List α) (y : α), lastFound? p l = some y → y ∈ l ∧ p y = true := by
  intro l
  induction l with
  | nil => intro y hy; simp [lastFound?] at hy
  | cons x xs ih =>
    intro y hy
    simp only [lastFound?] at hy
    cases hl : lastFound? p xs with
    | some z =>
      rw [hl] at hy
      obtain ⟨h1, h2⟩ := ih z hl
      cases hy
      exact ⟨List.mem_cons_of_mem _ h1, h2⟩
    | none =>
      rw [hl] at hy
      by_cases hp : p x = true
      · rw [if_pos hp] at hy
        cases hy
        exact ⟨List.mem_cons_self _ _, hp⟩
      · rw [if_neg hp] at hy
        cases hy

theorem lastFound?_mem {α : Type} (p : α → Bool) (l : List α)
    (h : ∃ x ∈ l, p x = true) :
    ∃ y, lastFound? p l = some y ∧ y ∈ l ∧ p y = true := by
  have hsome : (lastFound? p l).isSome = true := by
    induction l with
    | nil => simp at h
    | cons x xs ih =>
      simp only [lastFound?]
      cases hl : lastFound? p xs with
      | some z => simp
      | none =>
        obtain ⟨z, hz, hpz⟩ := h
        rcases List.mem_cons.mp hz with rfl | hz
        · simp [hpz]
        · have := ih ⟨z, hz, hpz⟩
          rw [hl] at this
          simp at this
  obtain ⟨y, hy⟩ := Option.isSome_iff_exists.mp hsome
  obtain ⟨h1, h2⟩ := lastFound?_sound p l y hy
  exact ⟨y, hy, h1, h2⟩

/-- A file argument that does not resolve to an existing file. -/
def missingIn (fsys : FSNode) (HOME cwd : String) (x : String) : Bool :=
  (getFileContentLocal fsys HOME cwd x).isNone

/-- `cat`'s loop: outputs accumulate over the found files in order (a
missing file contributes nothing but does not stop the loop), and the
error ends at the last missing file's message. -/
theorem catLoop_spec (fsys : FSNode) (home cwd : String) (multi : Bool)
    (files : List String) :
    ∀ (outs : List String) (err : Option String),
      catLoop fsys home cwd multi files (outs, err) =
        (outs ++ files.flatMap (fun x =>
          match getFileContentLocal fsys home cwd x with
          | none => []
          | some pc => (if multi then ["==> " ++ pc.1 ++ " <=="] else []) ++ [pc.2]),
         match lastFound? (missingIn fsys home cwd) files with
         | some raw => some ("cat: " ++ raw ++ ": No such file")
         | none => err) := by
  induction files with
  | nil => intro outs err; simp [catLoop, lastFound?]
  | cons x xs ih =>
    intro outs err
    cases hx : getFileContentLocal fsys home cwd x with
    | none =>
      unfold catLoop
      rw [hx]
      rw [ih]
      cases hl : lastFound? (missingIn fsys home cwd) xs with
      | some y => simp [lastFound?, hl, hx]
      | none => simp [lastFound?, hl, hx, missingIn]
    | some pc =>
      obtain ⟨p, c⟩ := pc
      unfold catLoop
      rw [hx]
      show catLoop fsys home cwd multi xs
        (outs ++ (if multi then ["==> " ++ p ++ " <=="] else []) ++ [c], err) = _
      rw [ih]
      cases hl : lastFound? (missingIn fsys home cwd) xs with
      | some y => simp [lastFound?, hl, hx, List.append_assoc]
      | none => simp [lastFound?, hl, hx, missingIn, List.append_assoc]

/-- `wc`'s loop: one row per found file in order (a missing file
contributes no row but does not stop the loop), running totals summed over
the found files, and the error ending at the last missing file's
message. -/
theorem wcLoop_found (fsys : FSNode) (home cwd : String)
    (flags : Bool × Bool × Bool) (files : List String) :
    ∀ (tl tw tb : Nat) (outs : List String) (err : Option String),
      wcLoop fsys home cwd flags files ((tl, tw, tb), outs, err) =
        ((tl + ((files.filterMap (getFileContentLocal fsys home cwd)).map
            (fun pc => wcLines pc.2)).sum,
          tw + ((files.filterMap (getFileContentLocal fsys home cwd)).map
            (fun pc => wcWords pc.2)).sum,
          tb + ((files.filterMap (getFileContentLocal fsys home cwd)).map
            (fun pc => wcBytes pc.2)).sum),
         outs ++ (files.filterMap (getFileContentLocal fsys home cwd)).map
           (fun pc => wcRow flags (wcLines pc.2) (wcWords pc.2) (wcBytes pc.2) pc.1),
         match lastFound? (missingIn fsys home cwd) files with
         | some raw => some ("wc: " ++ raw ++ ": No such file")
         | none => err) := by
  induction files with
  | nil => intro tl tw tb outs err; simp [wcLoop, lastFound?]
  | cons x xs ih =>
    intro tl tw tb outs err
    cases hx : getFileContentLocal fsys home cwd x with
    | none =>
      unfold wcLoop
      rw [hx]
      rw [ih]
      cases hl : lastFound? (missingIn fsys home cwd) xs with
      | some y => simp [lastFound?, hl, hx, List.filterMap_cons]
      | none => simp [lastFound?, hl, hx, missingIn, List.filterMap_cons]
    | some pc =>
      obtain ⟨p, c⟩ := pc
      unfold wcLoop
      rw [hx]
      show wcLoop fsys home cwd flags xs
        ((tl + wcLines c, tw + wcWords c, tb + wcBytes c),
         outs ++ [wcRow flags (wcLines c) (wcWords c) (wcBytes c) p], err) = _
      rw [ih]
      cases hl : lastFound? (missingIn fsys home cwd) xs with
      | some y => simp [lastFound?, hl, hx, List.filterMap_cons, Nat.add_assoc,
          List.append_assoc]
      | none => simp [lastFound?, hl, hx, missingIn, List.filterMap_cons,
          Nat.add_assoc, List.append_assoc]

/-- `grep`'s loop: one processed-lines block per found file in order (a
missing file contributes nothing but does not stop the loop), and the
error ending at the last missing file's message. -/
theorem grepLoop_found (fsys : FSNode) (home cwd : String)
    (matcher : Option (String → Bool)) (pattern : String)
    (ignoreCase countFlag multi : Bool) (files : List String) :
    ∀ (outs : List String) (err : Option String),
      grepLoop fsys home cwd matcher pattern ignoreCase countFlag multi files
        (outs, err) =
        (outs ++ (files.filterMap (getFileContentLocal fsys home cwd)).map
           (fun pc => grepProcessLines matcher pattern ignoreCase countFlag multi
             (jsSplitChar '\n' pc.2) (some pc.1)),
         match lastFound? (missingIn fsys home cwd) files with
         | some raw => some ("grep: " ++ raw ++ ": No such file")
         | none => err) := by
  induction files with
  | nil => intro outs err; simp [grepLoop, lastFound?]
  | cons x xs ih =>
    intro outs err
    cases hx : getFileContentLocal fsys home cwd x with
    | none =>
      unfold grepLoop
      rw [hx]
      rw [ih]
      cases hl : lastFound? (missingIn fsys home cwd) xs with
      | some y => simp [lastFound?, hl, hx, List.filterMap_cons]
      | none => simp [lastFound?, hl, hx, missingIn, List.filterMap_cons]
    | some pc =>
      obtain ⟨p, c⟩ := pc
      unfold grepLoop
      rw [hx]
      show grepLoop fsys home cwd matcher pattern ignoreCase countFlag multi xs
        (outs ++ [grepProcessLines matcher pattern ignoreCase countFlag multi
          (jsSplitChar '\n' c) (some p)], err) = _
      rw [ih]
      cases hl : lastFound? (missingIn fsys home cwd) xs with
      | some y => simp [lastFound?, hl, hx, List.filterMap_cons, List.append_assoc]
      | none => simp [lastFound?, hl, hx, missingIn, List.filterMap_cons,
          List.append_assoc]

/-- `cut`'s loop: outputs accumulate over the found files in order (a
missing file contributes nothing but does not stop the loop), and the
error ends at the last missing file's message. -/
theorem cutLoop_found (fsys : FSNode) (home cwd : String) (delimChar : String)
    (fieldNums : List Int) (multi : Bool) (files : List String) :
    ∀ (outs : List String) (err : Option String),
      cutLoop fsys home cwd delimChar fieldNums multi files (outs, err) =
        (outs ++ files.flatMap (fun x =>
           match getFileContentLocal fsys home cwd x with
           | none => []
           | some pc => (if multi then ["==> " ++ pc.1 ++ " <=="] else []) ++
               (jsSplitChar '\n' pc.2).map (cutLine delimChar fieldNums)),
         match lastFound? (missingIn fsys home cwd) files with
         | some raw => some ("cut: " ++ raw ++ ": No such file")
         | none => err) := by
  induction files with
  | nil => intro outs err; simp [cutLoop, lastFound?]
  | cons x xs ih =>
    intro outs err
    cases hx : getFileContentLocal fsys home cwd x with
    | none =>
      unfold cutLoop
      rw [hx]
      rw [ih]
      cases hl : lastFound? (missingIn fsys home cwd) xs with
      | some y => simp [lastFound?, hl, hx]
      | none => simp [lastFound?, hl, hx, missingIn]
    | some pc =>
      obtain ⟨p, c⟩ := pc
      unfold cutLoop
      rw [hx]
      show cutLoop fsys home cwd delimChar fieldNums multi xs
        (outs ++ (if multi then ["==> " ++ p ++ " <=="] else []) ++
          (jsSplitChar '\n' c).map (cutLine delimChar fieldNums), err) = _
      rw [ih]
      cases hl : lastFound? (missingIn fsys home cwd) xs with
      | some y => simp [lastFound?, hl, hx, List.append_assoc]
      | none => simp [lastFound?, hl, hx, missingIn, List.append_assoc]

theorem grepScanFlags_nofirst (a : String) (rest : List String)
    (h : isFlagToken a = false) (fl : Bool × Bool) :
    grepScanFlags (a :: rest) fl = (fl, a :: rest) := by
  unfold grepScanFlags
  rw [h]
  simp

/-- `grep` with a plain nonempty pattern and a nonempty file list runs its
file loop. -/
theorem runGrep_files (fsys : FSNode) (home cwd : String)
    (regex : String → Option (String → Bool)) (p0 : String)
    (files : List String) (stdin : Option String)
    (hp0 : isFlagToken p0 = false) (hp0ne : p0 ≠ "") (hne : files ≠ []) :
    runGrep fsys home cwd regex (p0 :: files) stdin =
      textFinish (grepLoop fsys home cwd (regex (grepStripQuotes p0))
        (grepStripQuotes p0) false false (files.length > 1) files ([], none)) := by
  unfold runGrep
  rw [grepScanFlags_nofirst p0 files hp0]
  show (if p0 = "" then _ else grepCore fsys home cwd regex false false
    (grepStripQuotes p0) files stdin) = _
  rw [if_neg hp0ne]
  unfold grepCore
  rw [if_neg hne]

theorem isFlagToken_not_dashPrefix (x : String) (c : Char)
    (h : isFlagToken x = false) :
    jsStartsWith (String.mk ['-', c]) x = false := by
  by_contra hpre
  have hpre' : jsStartsWith (String.mk ['-', c]) x = true := by
    cases hb : jsStartsWith (String.mk ['-', c]) x
    · exact absurd hb hpre
    · rfl
  unfold jsStartsWith at hpre'
  have hp : ['-', c] <+: x.data := by
    simpa using List.isPrefixOf_iff_prefix.mp (by simpa using hpre')
  obtain ⟨t, ht⟩ := hp
  unfold isFlagToken at h
  rw [Bool.and_eq_false_iff] at h
  rcases h with h | h
  · unfold jsStartsWith at h
    have hpp : ("-" : String).data.isPrefixOf x.data = true := by
      rw [← ht]
      show (['-'] : List Char).isPrefixOf ('-' :: c :: t) = true
      simp [List.isPrefixOf]
    rw [hpp] at h
    cases h
  · have hlen : x.length = x.data.length := rfl
    rw [hlen, ← ht] at h
    simp at h

/-- `cut -f1` on a plain file list parses to field list `[1]`, default
delimiter, and those files. -/
theorem cutParse_f1 (args : List String)
    (hnf : ∀ x ∈ args, isFlagToken x = false) :
    cutParse ("-f1" :: args) none "\t" = (some "1", "\t", args) := by
  unfold cutParse
  rw [show jsStartsWith "-f" "-f1" = true from by decide]
  rw [if_pos rfl]
  rw [if_neg (by decide : ¬("-f1" : String) = "-f")]
  show cutParse args (some "1") "\t" = _
  cases args with
  | nil => rfl
  | cons x rest =>
    unfold cutParse
    rw [isFlagToken_not_dashPrefix x 'f' (hnf x (List.mem_cons_self _ _))]
    rw [isFlagToken_not_dashPrefix x 'd' (hnf x (List.mem_cons_self _ _))]
    simp

theorem runCut_f1 (fsys : FSNode) (home cwd : String) (args : List String)
    (stdin : Option String) (hnf : ∀ x ∈ args, isFlagToken x = false)
    (hne : args ≠ []) :
    runCut fsys home cwd ("-f1" :: args) stdin =
      textFinish (cutLoop fsys home cwd "\t" [1] (args.length > 1) args ([], none)) := by
  unfold runCut
  rw [if_neg (by simp)]
  rw [cutParse_f1 args hnf]
  show cutCore fsys home cwd stdin (some "1") "\t" args = _
  unfold cutCore
  rw [if_neg (by decide : ¬((some "1" : Option String).getD "" = ""))]
  rw [if_neg (by decide : ¬(cutFieldNums ((some "1" : Option String).getD "") = []))]
  rw [if_neg hne]
  rw [show cutDelimChar "\t" = "\t" from by decide]
  rw [show cutFieldNums ((some "1" : Option String).getD "") = [1] from by decide]

/-- C7: for `cat`, `wc`, `grep` and `cut` invoked on several file
arguments of which at least one exists and at least one is missing, the
stage keeps processing past the missing files: its text is exactly the
output accumulated over the found files, in order (for `cat` the
headers-plus-contents, for `wc` the per-file rows plus the total row over
the found files, for `grep` one processed block per found file, for
`cut -f1` the headers plus rewritten lines), while its error
simultaneously names the last missing file. -/
theorem multiFile_missing_spec (fsys : FSNode) (home cwd : String)
    (regex : String → Option (String → Bool)) (stdin : Option String)
    (patt : String) (args : List String)
    (hfound : ∃ x ∈ args, (getFileContentLocal fsys home cwd x).isSome = true)
    (hmiss : ∃ x ∈ args, (getFileContentLocal fsys home cwd x).isNone = true)
    (hnf : ∀ x ∈ args, isFlagToken x = false)
    (hp0 : isFlagToken patt = false) (hp0ne : patt ≠ "") :
    ∃ raw ∈ args,
      getFileContentLocal fsys home cwd raw = none ∧
      (runCat fsys home cwd args stdin).text =
        some (jsJoinChar '\n' (args.flatMap (fun x =>
          match getFileContentLocal fsys home cwd x with
          | none => []
          | some pc =>
            (if args.length > 1 then ["==> " ++ pc.1 ++ " <=="] else []) ++ [pc.2]))) ∧
      (runCat fsys home cwd args stdin).error =
        some ("cat: " ++ raw ++ ": No such file") ∧
      (runWc fsys home cwd args stdin).text =
        some (jsJoinChar '\n'
          ((args.filterMap (getFileContentLocal fsys home cwd)).map
             (fun pc => wcRow (false, false, false) (wcLines pc.2) (wcWords pc.2)
               (wcBytes pc.2) pc.1) ++
           [wcTotalRow (false, false, false)
             (((args.filterMap (getFileContentLocal fsys home cwd)).map
                 (fun pc => wcLines pc.2)).sum,
              ((args.filterMap (getFileContentLocal fsys home cwd)).map
                 (fun pc => wcWords pc.2)).sum,
              ((args.filterMap (getFileContentLocal fsys home cwd)).map
                 (fun pc => wcBytes pc.2)).sum)])) ∧
      (runWc fsys home cwd args stdin).error =
        some ("wc: " ++ raw ++ ": No such file") ∧
      (runGrep fsys home cwd regex (patt :: args) stdin).text =
        some (jsJoinChar '\n'
          ((args.filterMap (getFileContentLocal fsys home cwd)).map
             (fun pc => grepProcessLines (regex (grepStripQuotes patt))
               (grepStripQuotes patt) false false (args.length > 1)
               (jsSplitChar '\n' pc.2) (some pc.1)))) ∧
      (runGrep fsys home cwd regex (patt :: args) stdin).error =
        some ("grep: " ++ raw ++ ": No such file") ∧
      (runCut fsys home cwd ("-f1" :: args) stdin).text =
        some (jsJoinChar '\n' (args.flatMap (fun x =>
          match getFileContentLocal fsys home cwd x with
          | none => []
          | some pc =>
            (if args.length > 1 then ["==> " ++ pc.1 ++ " <=="] else []) ++
              (jsSplitChar '\n' pc.2).map (cutLine "\t" [1])))) ∧
      (runCut fsys home cwd ("-f1" :: args) stdin).error =
        some ("cut: " ++ raw ++ ": No such file") := by
  obtain ⟨raw, hlast, hrawmem, hrawmiss⟩ :=
    lastFound?_mem (missingIn fsys home cwd) args
      (by
        obtain ⟨x, hx, hxm⟩ := hmiss
        exact ⟨x, hx, by simpa [missingIn] using hxm⟩)
  have hrawnone : getFileContentLocal fsys home cwd raw = none :=
    Option.isNone_iff_eq_none.mp (by simpa [missingIn] using hrawmiss)
  have hargsne : args ≠ [] := by
    rintro rfl
    simp at hfound
  obtain ⟨a, rest, rfl⟩ : ∃ a rest, args = a :: rest := by
    cases args with
    | nil => exact absurd rfl hargsne
    | cons a rest => exact ⟨a, rest, rfl⟩
  have hcat : runCat fsys home cwd (a :: rest) stdin =
      textFinish (catLoop fsys home cwd ((a :: rest).length > 1) (a :: rest) ([], none)) := by
    unfold runCat
    rw [if_pos (by simp)]
  have hwc : runWc fsys home cwd (a :: rest) stdin =
      wcFinish (false, false, false) (a :: rest)
        (wcLoop fsys home cwd (false, false, false) (a :: rest) ((0, 0, 0), [], none)) := by
    rw [runWc_eq fsys home cwd (a :: rest) stdin (false, false, false) (a :: rest)
      (wcScanFlags_nofirst a rest (hnf a (List.mem_cons_self _ _)) _)]
    rw [if_neg (by simp)]
  have hgrep := runGrep_files fsys home cwd regex patt (a :: rest) stdin hp0 hp0ne
    (by simp)
  have hcut := runCut_f1 fsys home cwd (a :: rest) stdin hnf (by simp)
  have hlen : (a :: rest).length > 1 := by
    cases rest with
    | cons b rest2 => simp
    | nil =>
      exfalso
      obtain ⟨x, hxmem, hxs⟩ := hfound
      obtain ⟨y, hymem, hyn⟩ := hmiss
      rw [List.mem_singleton] at hxmem hymem
      subst hxmem
      subst hymem
      rw [Option.isNone_iff_eq_none] at hyn
      rw [hyn] at hxs
      simp at hxs
  refine ⟨raw, hrawmem, hrawnone, ?_, ?_, ?_, ?_, ?_, ?_, ?_, ?_⟩
  · rw [hcat, catLoop_spec]
    simp [textFinish]
  · rw [hcat, catLoop_spec]
    simp only [textFinish, hlast]
  · rw [hwc, wcLoop_found, wcFinish_eq]
    rw [if_pos hlen]
    simp
  · rw [hwc, wcLoop_found, wcFinish_eq]
    simp only [hlast]
  · rw [hgrep, grepLoop_found]
    simp [textFinish]
  · rw [hgrep, grepLoop_found]
    simp only [textFinish, hlast]
  · rw [hcut, cutLoop_found]
    simp [textFinish]
  · rw [hcut, cutLoop_found]
    simp only [textFinish, hlast]

/-- Witness for C7: one found and one missing file on the demo tree; the
four commands return exactly the found file's output together with the
missing file's error. -/
theorem multiFile_missing_witness :
    (runCat demoFs "/home/user" "/home/user" ["a.txt", "nope"] none).text =
      some "==> /home/user/a.txt <==\nhello world\nfoo" ∧
    (runCat demoFs "/home/user" "/home/user" ["a.txt", "nope"] none).error =
      some "cat: nope: No such file" ∧
    (runWc demoFs "/home/user" "/home/user" ["a.txt", "nope"] none).text =
      some "2 3 15 /home/user/a.txt\n2 3 15 total" ∧
    (runWc demoFs "/home/user" "/home/user" ["a.txt", "nope"] none).error =
      some "wc: nope: No such file" ∧
    (runGrep demoFs "/home/user" "/home/user" noRegex ["x", "a.txt", "nope"] none).error =
      some "grep: nope: No such file" ∧
    (runCut demoFs "/home/user" "/home/user" ["-f1", "a.txt", "nope"] none).text =
      some "==> /home/user/a.txt <==\nhello world\nfoo" ∧
    (runCut demoFs "/home/user" "/home/user" ["-f1", "a.txt", "nope"] none).error =
      some "cut: nope: No such file" := by
  obtain ⟨raw, hmem, hnone, hcatT, hcatE, hwcT, hwcE, hgrepT, hgrepE, hcutT, hcutE⟩ :=
    multiFile_missing_spec demoFs "/home/user" "/home/user" noRegex none "x"
      ["a.txt", "nope"]
      ⟨"a.txt", by decide, by decide⟩ ⟨"nope", by decide, by decide⟩
      (by decide) (by decide) (by decide)
  have hraw : raw = "nope" := by
    rcases (by simpa using hmem : raw = "a.txt" ∨ raw = "nope") with rfl | rfl
    · exact absurd hnone (by decide)
    · rfl
  subst hraw
  refine ⟨?_, hcatE, ?_, hwcE, hgrepE, ?_, hcutE⟩
  · rw [hcatT]
    decide
  · rw [hwcT]
    decide
  · rw [hcutT]
    decide

/-! ## C9: tail -n +0 -/

/-- `tail -n +0` parses: JS `parseInt("+0")` is `0`, not `NaN`. -/
theorem headTailParse_plus_zero (raw : String) :
    headTailParse ["tail", "-n", "+0", raw] = (0, 3) := rfl

/-- With count 0, `tail`'s `slice(-0)` keeps every line. -/
theorem htEmit_tail_zero (content : String) :
    htEmit false 0 content = { text := some content, ls := none, error := none } := by
  unfold htEmit
  rw [if_neg (by simp)]
  rw [show (-(0 : Int)) = 0 from rfl]
  unfold jsSliceFrom
  rw [if_neg (by simp)]
  simp only [Int.toNat_zero, List.drop_zero]
  rw [jsJoinChar_jsSplitChar]

/-- C9 (amended): `tail -n +0 <file>` is accepted by the parser
(`parseInt("+0") = 0`), and `slice(-0)` selects all lines, so on an
existing file the stage returns the whole content with no error; only a
missing file yields an error. -/
theorem tail_plus_zero_spec (fsys : FSNode) (home cwd : String)
    (stdin : Option String) (raw : String) :
    runHeadTail fsys home cwd false ["tail", "-n", "+0", raw] stdin =
      match getFileContentLocal fsys home cwd raw with
      | some pc => { text := some pc.2, ls := none, error := none }
      | none => { text := none, ls := none,
                  error := some ("tail: " ++ raw ++ ": No such file") } := by
  have hj : jsJoinChar ' ' (["tail", "-n", "+0", raw].drop 3) = raw := by
    show jsJoinChar ' ' [raw] = raw
    exact jsJoinChar_single ' ' raw
  unfold runHeadTail
  rw [headTailParse_plus_zero]
  show (if ["tail", "-n", "+0", raw].length > 3 then _ else _) = _
  rw [if_pos (by simp)]
  rw [hj]
  cases hx : getFileContentLocal fsys home cwd raw with
  | none => rfl
  | some pc => exact htEmit_tail_zero pc.2

/-- Counterexample to C9 as stated: on the app filesystem,
`tail -n +0 /etc/hosts` succeeds (full content, no error) instead of
erroring. -/
theorem tail_plus_zero_counterexample :
    (handleShellSubmit appEnv "/home/user" "tail -n +0 /etc/hosts").error = none ∧
    (handleShellSubmit appEnv "/home/user" "tail -n +0 /etc/hosts").text = some "" := by
  refine ⟨by decide, by decide⟩

/-! ## C8: ls piped into wc -l -/

theorem dropWhile_of_head_neg {p : Char → Bool} (l : List Char)
    (h : ∀ c, l.head? = some c → p c = false) : l.dropWhile p = l := by
  cases l with
  | nil => rfl
  | cons c cs =>
    rw [List.dropWhile_cons, if_neg]
    rw [h c rfl]
    simp

theorem jsTrim_eq_self (s : String)
    (h1 : ∀ c, s.data.head? = some c → jsIsSpace c = false)
    (h2 : ∀ c, s.data.reverse.head? = some c → jsIsSpace c = false) :
    jsTrim s = s := by
  unfold jsTrim
  rw [dropWhile_of_head_neg s.data h1, dropWhile_of_head_neg s.data.reverse h2,
    List.reverse_reverse]

theorem jsTrim_append_space (s : String)
    (h1 : ∀ c, s.data.head? = some c → jsIsSpace c = false)
    (h2 : ∀ c, s.data.reverse.head? = some c → jsIsSpace c = false) :
    jsTrim (s ++ " ") = s := by
  unfold jsTrim
  rw [append_data_eq]
  rw [show (" " : String).data = [' '] from rfl]
  cases hs : s.data with
  | nil =>
    have hs' : s = "" := String.ext (by rw [hs])
    rw [hs']
    decide
  | cons c cs =>
    rw [dropWhile_of_head_neg (c :: cs ++ [' ']) (by
      intro c' hc'
      have hcc : c' = c := by
        rw [show (c :: cs ++ [' '] : List Char).head? = some c from rfl] at hc'
        exact (Option.some_inj.mp hc').symm
      subst hcc
      exact h1 c' (by rw [hs]; rfl))]
    rw [show (c :: cs ++ [' '] : List Char) = (c :: cs) ++ [' '] from rfl]
    rw [List.reverse_append]
    rw [show ([' '] : List Char).reverse = [' '] from rfl]
    rw [show ([' '] ++ (c :: cs).reverse : List Char) = ' ' :: (c :: cs).reverse from rfl]
    rw [List.dropWhile_cons, if_pos (by decide : jsIsSpace ' ' = true)]
    rw [dropWhile_of_head_neg (c :: cs).reverse
      (fun c' hc' => h2 c' (by rw [hs]; exact hc'))]
    rw [List.reverse_reverse]
    exact String.ext hs.symm

/-- Splitting the piped line on `|`. -/
theorem stageSplit_ls_pipe_wc (d : String) (hd : d ≠ "")
    (hws : ∀ c ∈ d.data, jsIsSpace c = false) (hp : '|' ∉ d.data) :
    stageSplit ("ls " ++ d ++ " | wc -l") = ["ls " ++ d, "wc -l"] := by
  have hdata : ("ls " ++ d ++ " | wc -l").data =
      ((("ls " ++ d).data ++ [' ']) ++ '|' :: (" wc -l" : String).data) := by
    rw [append_data_eq, append_data_eq]
    simp
  have hA : '|' ∉ (("ls " ++ d).data ++ [' ']) := by
    intro hmem
    rw [append_data_eq] at hmem
    rcases List.mem_append.mp hmem with h | h
    · rcases List.mem_append.mp h with h | h
      · simp [show ("ls " : String).data = ['l', 's', ' '] from rfl] at h
      · exact hp h
    · simp at h
  have hmk1 : String.mk (("ls " ++ d).data ++ [' ']) = "ls " ++ d ++ " " := by
    apply String.ext
    rw [append_data_eq]
    rfl
  have hsplit : jsSplitChar '|' ("ls " ++ d ++ " | wc -l") =
      ["ls " ++ d ++ " ", " wc -l"] := by
    unfold jsSplitChar
    rw [hdata, splitOn_sep]
    rw [splitOn_of_not_mem '|' _ hA]
    rw [splitOn_of_not_mem '|' _ (by decide : '|' ∉ (" wc -l" : String).data)]
    show [String.mk (("ls " ++ d).data ++ [' ']), String.mk (" wc -l" : String).data] = _
    rw [hmk1]
  have hhead1 : ∀ c, ("ls " ++ d).data.head? = some c → jsIsSpace c = false := by
    intro c hc
    rw [append_data_eq] at hc
    rw [show ("ls " : String).data = ['l', 's', ' '] from rfl] at hc
    simp at hc
    rw [← hc]
    rfl
  have hlast1 : ∀ c, ("ls " ++ d).data.reverse.head? = some c → jsIsSpace c = false := by
    intro c hc
    rw [append_data_eq, List.reverse_append] at hc
    obtain ⟨init, last, hinit⟩ : ∃ init last, d.data = init ++ [last] := by
      rcases List.eq_nil_or_concat d.data with h0 | ⟨init, last, h0⟩
      · exact absurd (String.ext h0) hd
      · exact ⟨init, last, by simpa [List.concat_eq_append] using h0⟩
    rw [hinit] at hc
    simp at hc
    rw [← hc]
    exact hws last (by rw [hinit]; simp)
  unfold stageSplit
  rw [hsplit]
  rw [show (["ls " ++ d ++ " ", " wc -l"].map jsTrim) =
    [jsTrim ("ls " ++ d ++ " "), jsTrim " wc -l"] from rfl]
  rw [jsTrim_append_space _ hhead1 hlast1]
  rw [show jsTrim " wc -l" = "wc -l" from by decide]
  rw [List.filter_eq_self.mpr]
  intro s hs
  rcases List.mem_cons.mp hs with rfl | hs
  · simp only [ne_eq, decide_eq_true_eq]
    intro h0
    rw [String.ext_iff, append_data_eq] at h0
    simp at h0
  · simp at hs
    rw [hs]
    decide

theorem runSingleParts_ls (env : ShellEnv) (cwd : String) (args : List String)
    (stdin : Option String) :
    runSingleParts env cwd ("ls" :: args) stdin =
      runLs env.fsys env.HOME cwd env.override args := rfl

theorem runSingleParts_wc (env : ShellEnv) (cwd : String) (args : List String)
    (stdin : Option String) :
    runSingleParts env cwd ("wc" :: args) stdin =
      runWc env.fsys env.HOME cwd args stdin := rfl

/-- Tokens of a single-argument `ls` stage. -/
theorem lsTokens (d : String) (hd : d ≠ "")
    (hws : ∀ c ∈ d.data, jsIsSpace c = false) :
    (jsSplitChar ' ' ("ls " ++ d)).filter (· ≠ "") = ["ls", d] := by
  have hdata : ("ls " ++ d).data = (['l', 's'] : List Char) ++ ' ' :: d.data := by
    rw [append_data_eq]
    rfl
  unfold jsSplitChar
  rw [hdata, splitOn_sep]
  rw [splitOn_of_not_mem ' ' ['l', 's'] (by decide)]
  rw [splitOn_of_not_mem ' ' d.data (fun hmem => by
    have := hws ' ' hmem
    simp [jsIsSpace] at this)]
  show (["ls", String.mk d.data] : List String).filter (· ≠ "") = ["ls", d]
  rw [show String.mk d.data = d from rfl]
  rw [List.filter_eq_self.mpr]
  intro s hs
  rcases List.mem_cons.mp hs with rfl | hs
  · decide
  · simp only [List.mem_singleton] at hs
    subst hs
    simpa using hd

/-- `ls` on a single plain directory argument lists it. -/
theorem runLs_single (fsys : FSNode) (home cwd : String) (ov : Bool) (d : String)
    (hflag : isFlagToken d = false) (name : String) (children : List FSNode)
    (hdir : isDirectory fsys (lsResolveTarget home cwd d) = true)
    (hfind : findNodeByPath fsys (lsResolveTarget home cwd d) =
      some (.dir name children)) :
    runLs fsys home cwd ov [d] =
      { text := some (lsFlatten (lsEntriesOf children false ov)),
        ls := some { path := lsResolveTarget home cwd d,
                     entries := lsEntriesOf children false ov, showAll := false,
                     long := false, human := false, blocks := false },
        error := none } := by
  unfold runLs
  rw [lsScanFlags_noflag d hflag]
  show lsCore fsys home cwd ov false false false false [d] = _
  have htgt : lsTarget home cwd [d] = lsResolveTarget home cwd d := by
    unfold lsTarget
    rw [if_neg (by simp), jsJoinChar_single]
  unfold lsCore
  rw [htgt, hdir, hfind]
  rw [show (!true) = false from rfl]
  rw [if_neg (by simp)]

/-- The flattened listing text has exactly one line per entry. -/
theorem wcLines_lsFlatten (entries : List LsEntry) (hne : entries ≠ [])
    (hnames : ∀ e ∈ entries, '\n' ∉ e.name.data) :
    wcLines (lsFlatten entries) = entries.length := by
  unfold wcLines lsFlatten
  rw [jsSplitChar_jsJoinChar '\n' _ ?chunks (by simpa using hne)]
  · simp
  case chunks =>
    intro s hs
    obtain ⟨e, he, rfl⟩ := List.mem_map.mp hs
    by_cases hdir : e.isDir = true
    · rw [if_pos hdir, append_data_eq]
      intro hmem
      rcases List.mem_append.mp hmem with h | h
      · exact hnames e he h
      · simp [show ("/" : String).data = ['/'] from rfl] at h
    · rw [if_neg hdir]
      exact hnames e he

theorem jsJoinChar_count_dash (s : String) :
    jsJoinChar ' ' [s, "-"] = s ++ " -" := by
  rw [jsJoinChar_pair]
  apply String.ext
  rw [append_data_eq]

/-- C8 (amended): for a directory with a nonempty visible listing (the
entries of a plain `ls`, newline-free names), piping `ls <dir>` into
`wc -l` yields the text `k -` where `k` is the number of listed entries
(the `-` label marks stdin input); on an empty listing the `wc` of the
empty string reports 1, not 0, so the claim fails there. -/
theorem ls_pipe_wc_count (env : ShellEnv) (cwd d : String)
    (hd : d ≠ "") (hflag : isFlagToken d = false)
    (hws : ∀ c ∈ d.data, jsIsSpace c = false) (hp : '|' ∉ d.data)
    (name : String) (children : List FSNode)
    (hdir : isDirectory env.fsys (lsResolveTarget env.HOME cwd d) = true)
    (hfind : findNodeByPath env.fsys (lsResolveTarget env.HOME cwd d) =
      some (.dir name children))
    (hk : lsEntriesOf children false env.override ≠ [])
    (hnames : ∀ e ∈ lsEntriesOf children false env.override, '\n' ∉ e.name.data) :
    (handleShellSubmit env cwd ("ls " ++ d ++ " | wc -l")).text =
      some (toString (lsEntriesOf children false env.override).length ++ " -") ∧
    (handleShellSubmit env cwd ("ls " ++ d ++ " | wc -l")).error = none := by
  have hhead : ("ls " ++ d ++ " | wc -l").data.head? = some 'l' := by
    rw [append_data_eq, append_data_eq]
    rfl
  have hlast : ("ls " ++ d ++ " | wc -l").data.reverse.head? = some 'l' := by
    rw [append_data_eq, List.reverse_append]
    rfl
  have htrim : jsTrim ("ls " ++ d ++ " | wc -l") = "ls " ++ d ++ " | wc -l" := by
    apply jsTrim_eq_self
    · intro c hc
      rw [hhead] at hc
      cases hc
      rfl
    · intro c hc
      rw [hlast] at hc
      cases hc
      rfl
  have hne_input : ("ls " ++ d ++ " | wc -l") ≠ "" := by
    intro h0
    rw [h0] at hhead
    cases hhead
  have hr1 : runSingle env cwd ("ls " ++ d) none =
      { text := some (lsFlatten (lsEntriesOf children false env.override)),
        ls := some { path := lsResolveTarget env.HOME cwd d,
                     entries := lsEntriesOf children false env.override,
                     showAll := false, long := false, human := false, blocks := false },
        error := none } := by
    unfold runSingle
    rw [lsTokens d hd hws, runSingleParts_ls]
    exact runLs_single env.fsys env.HOME cwd env.override d hflag name children hdir hfind
  have hrow : wcRow (true, false, false)
      (wcLines (lsFlatten (lsEntriesOf children false env.override)))
      (wcWords (lsFlatten (lsEntriesOf children false env.override)))
      (wcBytes (lsFlatten (lsEntriesOf children false env.override))) "-" =
      toString (lsEntriesOf children false env.override).length ++ " -" := by
    show jsJoinChar ' '
      [toString (wcLines (lsFlatten (lsEntriesOf children false env.override))), "-"] = _
    rw [wcLines_lsFlatten _ hk hnames, jsJoinChar_count_dash]
  have hr2 : runSingle env cwd "wc -l"
      (some (lsFlatten (lsEntriesOf children false env.override))) =
      { text := some (toString (lsEntriesOf children false env.override).length ++ " -"),
        ls := none, error := none } := by
    unfold runSingle
    rw [show (jsSplitChar ' ' "wc -l").filter (· ≠ "") = ["wc", "-l"] from by decide]
    rw [runSingleParts_wc]
    rw [runWc_eq env.fsys env.HOME cwd ["-l"] _ (true, false, false) []
      (by decide)]
    rw [if_pos rfl]
    simp only [runWcStdinCase, hrow]
  have hstages : runStages env cwd ["ls " ++ d, "wc -l"] none none =
      .success (some { path := lsResolveTarget env.HOME cwd d,
                       entries := lsEntriesOf children false env.override,
                       showAll := false, long := false, human := false, blocks := false })
        (some (toString (lsEntriesOf children false env.override).length ++ " -")) := by
    simp only [runStages, hr1, hr2]
  have hmain : handleShellSubmit env cwd ("ls " ++ d ++ " | wc -l") =
      match runStages env cwd ["ls " ++ d, "wc -l"] none none with
      | .failure e => { cwd := cwd, text := none, ls := none, error := some e }
      | .success lastLs currentText =>
        { cwd := cwd, text := currentText, ls := lastLs, error := none } := by
    unfold handleShellSubmit
    rw [htrim, if_neg hne_input]
    unfold evalCore
    rw [stageSplit_ls_pipe_wc d hd hws hp]
    rw [if_pos (by simp)]
  rw [hmain, hstages]
  exact ⟨rfl, rfl⟩

/-- Witness for C8's amended theorem: `/bin` has four visible entries. -/
theorem ls_pipe_wc_count_witness :
    (handleShellSubmit appEnv "/home/user" "ls /bin | wc -l").text = some "4 -" ∧
    (handleShellSubmit appEnv "/home/user" "ls /bin | wc -l").error = none := by
  obtain ⟨h1, h2⟩ := ls_pipe_wc_count appEnv "/home/user" "/bin"
    (by decide) (by decide) (by decide) (by decide)
    "bin" [.file "bash" none, .file "ls" none, .file "cat" none, .file "echo" none]
    (by decide) rfl (by decide) (by decide)
  exact ⟨h1, h2⟩

/-- Counterexample to C8 as stated: `/tmp` has zero visible entries, yet
`ls /tmp | wc -l` reports `1 -` (the split of the empty string has one
segment), not the count 0. -/
theorem ls_pipe_wc_counterexample :
    (runSingle appEnv "/home/user" "ls /tmp" none).ls.map
      (fun o => o.entries.length) = some 0 ∧
    (handleShellSubmit appEnv "/home/user" "ls /tmp | wc -l").text = some "1 -" ∧
    (handleShellSubmit appEnv "/home/user" "ls /tmp | wc -l").text.map
      jsFirstWsToken ≠ some (toString 0) := by
  refine ⟨by decide, by decide, by decide⟩

end LinuxSim
